import Mathlib

/-!
Verification of the Agentgen core against its specification.

The development shallowly embeds the parts of the TypeScript sources that the
verified properties are about: the managed-section merge of `AGENT.md`
documents, the blueprint builder and validators, the interview engine's
answer validation, the template-pack loader, and the path-containment logic
of the file writer.  Strings are Lean `String`s; where the original code
manipulates character positions, the embedding works on `String.data`
(lists of characters).  Fallible operations are embedded as `Except`.
-/

deriving instance DecidableEq for Except

namespace Agentgen

/-! ## Managed-section merge (renderer/agent-md.ts)

The merge implementation itself is absent from the sources; only its unit
tests, documentation and caller exist.  The definitions below are modelled
from the spec: the document is a list of lines, markers occupy whole lines
(spec §9), and parsing/malformed-document failure follow spec §4.3 steps
1–3.  Fresh entries whose id matches no existing region are ignored rather
than appended, following the repository's unit tests
(`tests/unit/blueprint.test.ts`, "should handle sections not present in
original"), which pin this behaviour against spec §4.3 step 4. -/

/-- Characters of the start-marker line before the region name. -/
def SPRE : List Char := "<!-- agentgen:managed:start:".data

/-- Characters of the end-marker line before the region name. -/
def EPRE : List Char := "<!-- agentgen:managed:end:".data

/-- Characters of a marker line after the region name. -/
def MSUF : List Char := " -->".data

/-- The start-marker line for a region name. -/
def startMark (n : String) : String :=
  String.mk (SPRE ++ n.data ++ MSUF)

/-- The end-marker line for a region name. -/
def endMark (n : String) : String :=
  String.mk (EPRE ++ n.data ++ MSUF)

/-- If `l` is `pre ++ mid ++ suf`, return `mid`; otherwise `none`. -/
def stripWrap (pre suf l : List Char) : Option (List Char) :=
  if pre.isPrefixOf l then
    let m := l.drop pre.length
    if suf.isSuffixOf m then some (m.take (m.length - suf.length)) else none
  else none

/-- Recognise a marker line: `some (true, n)` for a start marker named `n`,
`some (false, n)` for an end marker, `none` for an ordinary line. -/
def parseMarkerLine (l : String) : Option (Bool × String) :=
  match stripWrap SPRE MSUF l.data with
  | some n => some (true, String.mk n)
  | none =>
    match stripWrap EPRE MSUF l.data with
    | some n => some (false, String.mk n)
    | none => none

/-- Malformed-document failure, identifying the offending marker and its
(0-based) line, as required by spec §4.3's failure semantics. -/
inductive MDErr where
  | endWithoutStart (name : String) (line : Nat)
  | nested (name : String) (line : Nat)
  | mismatch (expected found : String) (line : Nat)
  | unterminated (name : String) (line : Nat)
deriving DecidableEq

/-- A parsed document chunk: a literal line outside all regions, or a
managed region with its name and content lines. -/
inductive Chunk where
  | lit (line : String)
  | region (name : String) (content : List String)
deriving DecidableEq

/-- Single linear scan over the lines (spec §4.3 step 1): `cur` is the
currently open region (name, start line, content so far), `i` the current
line number. -/
def scanLines : (ls : List String) → (i : Nat) →
    (cur : Option (String × Nat × List String)) → Except MDErr (List Chunk)
  | [], _, none => .ok []
  | [], _, some (n, ln, _) => .error (.unterminated n ln)
  | l :: ls, i, none =>
    match parseMarkerLine l with
    | some (true, n) => scanLines ls (i + 1) (some (n, i, []))
    | some (false, n) => .error (.endWithoutStart n i)
    | none => (scanLines ls (i + 1) none).map (fun cs => .lit l :: cs)
  | l :: ls, i, some (n, ln, acc) =>
    match parseMarkerLine l with
    | some (true, m) => .error (.nested m i)
    | some (false, m) =>
      if m = n then (scanLines ls (i + 1) none).map (fun cs => .region n acc :: cs)
      else .error (.mismatch n m i)
    | none => scanLines ls (i + 1) (some (n, ln, acc ++ [l]))

/-- Partition a document into alternating literal lines and managed regions
(spec §4.3 steps 1–2). -/
def parseDoc (doc : List String) : Except MDErr (List Chunk) :=
  scanLines doc 0 none

/-- A freshly generated named region (`{ id, content }` in the sources). -/
structure FreshSection where
  id : String
  content : List String
deriving DecidableEq

/-- Render one chunk back to lines. -/
def renderChunk : Chunk → List String
  | .lit l => [l]
  | .region n c => startMark n :: c ++ [endMark n]

/-- Reassemble chunks into document lines (spec §4.3 step 5). -/
def renderChunks (cs : List Chunk) : List String :=
  (cs.map renderChunk).flatten

/-- Replace a region's content when its name occurs in the fresh list,
leave it untouched otherwise (spec §4.3 step 3). -/
def updChunk (fresh : List FreshSection) : Chunk → Chunk
  | .lit l => .lit l
  | .region n c =>
    match fresh.find? (fun s => s.id == n) with
    | some s => .region n s.content
    | none => .region n c

/-- Modelled from the spec: `updateManagedSections` of
`src/renderer/agent-md.ts`, which is missing from the sources (only its unit
tests, documentation and caller `executeUpdateAgentCommand` are present).
Parse the document, update each managed region from `fresh`, and reassemble;
malformed markers abort with an `MDErr`.  Fresh entries matching no existing
region are ignored, as the repository's unit tests require. -/
def updateManagedSections (doc : List String) (fresh : List FreshSection) :
    Except MDErr (List String) :=
  (parseDoc doc).map fun cs => renderChunks (cs.map (updChunk fresh))

/-- Well-formedness of a chunk: none of its lines re-parse as marker lines
(guaranteed for chunks produced by `parseDoc`). -/
def chunkWF : Chunk → Prop
  | .lit l => parseMarkerLine l = none
  | .region _ c => ∀ l ∈ c, parseMarkerLine l = none

/-- The literal lines of a chunk list, in order. -/
def litLines (cs : List Chunk) : List String :=
  cs.filterMap fun c =>
    match c with
    | .lit l => some l
    | .region _ _ => none

/-- The document contains a start marker followed, before any end marker,
by another start marker (nested markers, spec §4.3 step 1). -/
def NestedPattern (doc : List String) : Prop :=
  ∃ pre mid post l1 l2 n m,
    doc = pre ++ l1 :: (mid ++ l2 :: post) ∧
    parseMarkerLine l1 = some (true, n) ∧
    parseMarkerLine l2 = some (true, m) ∧
    ∀ l ∈ mid, ∀ k, parseMarkerLine l ≠ some (false, k)

/-- The document contains a start marker whose next end marker carries a
different name (mismatched markers, spec §4.3 step 1). -/
def MismatchPattern (doc : List String) : Prop :=
  ∃ pre mid post l1 l2 n m,
    doc = pre ++ l1 :: (mid ++ l2 :: post) ∧
    parseMarkerLine l1 = some (true, n) ∧
    parseMarkerLine l2 = some (false, m) ∧ m ≠ n ∧
    ∀ l ∈ mid, ∀ k, parseMarkerLine l ≠ some (false, k)

/-! ## Blueprint data model (src/core/types.ts) -/

/-- `BlueprintMeta` of core/types.ts. -/
structure BlueprintMeta where
  packId : String
  packVersion : String
  generatedAt : String
  agentgenVersion : String
deriving DecidableEq

/-- `ProjectConfig` of core/types.ts. -/
structure ProjectConfig where
  name : String
  description : String
  author : Option String
  license : Option String
  repository : Option String
deriving DecidableEq

/-- `RuntimeConfig` of core/types.ts. -/
structure RuntimeConfig where
  version : String
  manager : String
deriving DecidableEq

/-- `StackConfig` of core/types.ts; the dependency records are association
lists in insertion order. -/
structure StackConfig where
  language : String
  framework : String
  runtime : RuntimeConfig
  dependencies : List (String × String)
  devDependencies : List (String × String)
deriving DecidableEq

/-- `DatabaseFeature` of core/types.ts. -/
structure DatabaseFeature where
  enabled : Bool
  type : String
  orm : String
  migrations : Bool
  async : Bool
deriving DecidableEq

/-- `AuthenticationFeature` of core/types.ts. -/
structure AuthenticationFeature where
  enabled : Bool
  method : String
deriving DecidableEq

/-- `FeaturesConfig` of core/types.ts. -/
structure FeaturesConfig where
  database : DatabaseFeature
  authentication : AuthenticationFeature
  cors : Bool
  rateLimiting : Bool
  openapi : Bool
  healthCheck : Bool
deriving DecidableEq

/-- `ToolConfig` of core/types.ts. -/
structure ToolConfig where
  tool : String
  configFile : String
deriving DecidableEq

/-- `TestingConfig` of core/types.ts; `coverageThreshold` is optional in the
blueprint schema and compared against `undefined` by the validator. -/
structure TestingConfig where
  framework : String
  coverage : Bool
  coverageThreshold : Option Int
deriving DecidableEq

/-- `ToolingConfig` of core/types.ts. -/
structure ToolingConfig where
  linter : ToolConfig
  formatter : ToolConfig
  typeChecker : ToolConfig
  testing : TestingConfig
deriving DecidableEq

/-- `DockerConfig` of core/types.ts. -/
structure DockerConfig where
  enabled : Bool
  compose : Bool
  registry : String
deriving DecidableEq

/-- `CIConfig` of core/types.ts. -/
structure CIConfig where
  provider : String
  checks : List String
deriving DecidableEq

/-- `DeploymentConfig` of core/types.ts. -/
structure DeploymentConfig where
  target : String
deriving DecidableEq

/-- `InfrastructureConfig` of core/types.ts. -/
structure InfrastructureConfig where
  docker : DockerConfig
  ci : CIConfig
  deployment : DeploymentConfig
deriving DecidableEq

/-- `AgentConfig` of core/types.ts (the enums are embedded as strings). -/
structure AgentConfig where
  strictness : String
  testRequirements : String
  allowedOperations : List String
  prohibitedOperations : List String
  customRules : List String
deriving DecidableEq

/-- `PathsConfig` of core/types.ts. -/
structure PathsConfig where
  outputDir : String
  sourceDir : String
  testDir : String
deriving DecidableEq

/-- `Blueprint` of core/types.ts. -/
structure Blueprint where
  version : String
  meta : BlueprintMeta
  project : ProjectConfig
  stack : StackConfig
  features : FeaturesConfig
  tooling : ToolingConfig
  infrastructure : InfrastructureConfig
  agent : AgentConfig
  paths : PathsConfig
deriving DecidableEq

/-! ## Semver-constraint matching (blueprint/validator.ts) -/

/-- Match `\d+` at the front of `l` and return the remainder, or `none` if
no digit is present. -/
def dropNum (l : List Char) : Option (List Char) :=
  if l.takeWhile Char.isDigit = [] then none
  else some (l.dropWhile Char.isDigit)

/-- Match `\d+\.\d+\.\d+` at the front of `l` and return the remainder. -/
def matchTriple (l : List Char) : Option (List Char) :=
  match dropNum l with
  | some (c :: r1) =>
    if c = '.' then
      match dropNum r1 with
      | some (d :: r2) => if d = '.' then dropNum r2 else none
      | _ => none
    else none
  | _ => none

/-- `isValidSemverConstraint` of blueprint/validator.ts: the anchored
regular expressions are embedded as explicit matchers over the characters,
one per pattern, combined with `patterns.some`. -/
def isValidSemverConstraint (version : String) : Bool :=
  let l := version.data
  -- exact: 1.0.0
  (matchTriple l = some []) ||
  -- caret: ^1.0.0
  (match l with | c :: r => c == '^' && (matchTriple r = some []) | [] => false) ||
  -- tilde: ~1.0.0
  (match l with | c :: r => c == '~' && (matchTriple r = some []) | [] => false) ||
  -- gte: >=1.0.0
  (match l with
   | c :: d :: r => c == '>' && d == '=' && (matchTriple r = some [])
   | _ => false) ||
  -- lte: <=1.0.0
  (match l with
   | c :: d :: r => c == '<' && d == '=' && (matchTriple r = some [])
   | _ => false) ||
  -- gt: >1.0.0
  (match l with | c :: r => c == '>' && (matchTriple r = some []) | [] => false) ||
  -- lt: <1.0.0
  (match l with | c :: r => c == '<' && (matchTriple r = some []) | [] => false) ||
  -- range: >=1.0.0,<2.0.0
  (match l with
   | c :: d :: r =>
     c == '>' && d == '=' &&
     (match matchTriple r with
      | some rr =>
        match rr with
        | e :: f :: r2 => e == ',' && f == '<' && (matchTriple r2 = some [])
        | _ => false
      | none => false)
   | _ => false) ||
  -- any: *
  (l = ['*']) ||
  -- latest tag
  (version = "latest")

/-- Spec-side version grammar (§4.2 rule 5): a nonempty run of digits. -/
def NumRun (l : List Char) : Prop := l ≠ [] ∧ ∀ c ∈ l, c.isDigit

/-- Spec-side version grammar (§4.2 rule 5): an exact `X.Y.Z` version. -/
def SpecTriple (l : List Char) : Prop :=
  ∃ x y z, NumRun x ∧ NumRun y ∧ NumRun z ∧ l = x ++ '.' :: y ++ '.' :: z

/-- Spec-side version-constraint grammar, following §4.2 rule 5 word for
word: exact `X.Y.Z`; one of the prefixes `^ ~ >= <= > <` followed by
`X.Y.Z`; the two-sided range `>=X.Y.Z,<X.Y.Z`; the wildcard `*`; or the
literal `latest`. -/
def SemverGrammar (s : String) : Prop :=
  SpecTriple s.data ∨
  (∃ r, s.data = '^' :: r ∧ SpecTriple r) ∨
  (∃ r, s.data = '~' :: r ∧ SpecTriple r) ∨
  (∃ r, s.data = '>' :: '=' :: r ∧ SpecTriple r) ∨
  (∃ r, s.data = '<' :: '=' :: r ∧ SpecTriple r) ∨
  (∃ r, s.data = '>' :: r ∧ SpecTriple r) ∨
  (∃ r, s.data = '<' :: r ∧ SpecTriple r) ∨
  (∃ a b, SpecTriple a ∧ SpecTriple b ∧
    s.data = '>' :: '=' :: a ++ ',' :: '<' :: b) ∨
  s = "*" ∨ s = "latest"

/-! ## Blueprint validators (blueprint/validator.ts) -/

/-- `Array.prototype.join('\n')` on the collected error messages. -/
def joinNL : List String → String
  | [] => ""
  | [s] => s
  | s :: rest => s ++ "\n" ++ joinNL rest

/-- The messages pushed by `validateBlueprintConsistency`, in program
order.  JavaScript's falsiness test `!s` on a string is `s = ""`. -/
def consistencyErrors (b : Blueprint) : List String :=
  (if b.features.database.enabled then
    (if b.features.database.type = "" ∨ b.features.database.type = "none" then
      ["Database type must be specified when database is enabled"] else []) ++
    (if b.features.database.orm = "" ∨ b.features.database.orm = "none" then
      ["Database ORM must be specified when database is enabled"] else []) ++
    (if b.features.database.migrations ∧ ¬b.features.database.enabled then
      ["Cannot enable migrations when database is disabled"] else []) ++
    (if b.features.database.async ∧ ¬b.features.database.enabled then
      ["Cannot enable async database when database is disabled"] else [])
  else []) ++
  (if b.features.authentication.enabled then
    (if b.features.authentication.method = "" ∨
        b.features.authentication.method = "none" then
      ["Authentication method must be specified when authentication is enabled"]
    else [])
  else []) ++
  (if b.infrastructure.ci.provider ≠ "none" then
    (if b.infrastructure.ci.checks = [] then
      ["CI checks must be specified when CI provider is configured"] else [])
  else []) ++
  (if b.infrastructure.docker.compose ∧ ¬b.infrastructure.docker.enabled then
    ["Cannot enable Docker Compose when Docker is disabled"] else []) ++
  (if b.tooling.testing.coverage ∧ b.tooling.testing.coverageThreshold = none then
    ["Coverage threshold must be specified when coverage is enabled"] else []) ++
  (match b.tooling.testing.coverageThreshold with
   | some t =>
     if t < 0 ∨ t > 100 then ["Coverage threshold must be between 0 and 100"]
     else []
   | none => [])

/-- `validateBlueprintConsistency`: collect every message, then throw a
single `ValidationError` whose message is the list joined with newlines
(the `ValidationError` constructor prepends `Validation failed: `). -/
def validateBlueprintConsistency (b : Blueprint) : Except String Unit :=
  if consistencyErrors b = [] then .ok ()
  else .error ("Validation failed: Blueprint consistency validation failed:\n" ++
    joinNL (consistencyErrors b))

/-- The messages collected by `validateBlueprintDependencies`, in program
order: one per dependency (then dev dependency) whose version fails
`isValidSemverConstraint`, naming the offending key. -/
def dependencyErrors (b : Blueprint) : List String :=
  (b.stack.dependencies.filterMap fun p =>
    if isValidSemverConstraint p.2 then none
    else some ("Invalid version constraint for dependency '" ++ p.1 ++ "': " ++ p.2)) ++
  (b.stack.devDependencies.filterMap fun p =>
    if isValidSemverConstraint p.2 then none
    else some ("Invalid version constraint for dev dependency '" ++ p.1 ++ "': " ++ p.2))

/-- `validateBlueprintDependencies`, throwing a single `ValidationError`
when any version constraint is invalid. -/
def validateBlueprintDependencies (b : Blueprint) : Except String Unit :=
  if dependencyErrors b = [] then .ok ()
  else .error ("Validation failed: Dependency validation failed:\n" ++
    joinNL (dependencyErrors b))

/-! ## JavaScript value semantics shared by the embeddings -/

/-- An interview answer value (`string | boolean | number | string[]`). -/
inductive AnswerValue where
  | str (s : String)
  | bool (b : Bool)
  | num (n : Int)
  | list (xs : List String)
deriving DecidableEq

/-- JavaScript truthiness of an answer value (arrays are objects, hence
always truthy; integer numbers are falsy exactly at `0`). -/
def truthy : AnswerValue → Bool
  | .str s => s ≠ ""
  | .bool b => b
  | .num n => n ≠ 0
  | .list _ => true

/-- JavaScript truthiness of a possibly-missing value (`undefined` is
falsy). -/
def truthyOpt : Option AnswerValue → Bool
  | none => false
  | some v => truthy v

/-- `String(value)` on an answer value. -/
def toStringJS : AnswerValue → String
  | .str s => s
  | .bool b => if b then "true" else "false"
  | .num n => toString n
  | .list xs => String.intercalate "," xs

/-- `AnswerSet`: mapping from question identifier to answer value. -/
def AnswerSet : Type := String → Option AnswerValue

/-- Split a character list at every occurrence of `sep` (the split pieces
never contain `sep`). -/
def splitOnChar (sep : Char) : List Char → List (List Char)
  | [] => [[]]
  | c :: cs =>
    let r := splitOnChar sep cs
    if c = sep then [] :: r else (c :: r.headD []) :: r.tail

/-- Strip leading and trailing whitespace (JavaScript `String.prototype.trim`). -/
def trimChars (l : List Char) : List Char :=
  ((l.dropWhile Char.isWhitespace).reverse.dropWhile Char.isWhitespace).reverse

/-- Numeric value of a digit run. -/
def digitsToNat (l : List Char) : Nat :=
  l.foldl (fun a c => a * 10 + (c.toNat - '0'.toNat)) 0

/-- `parseInt(s, 10)`: skip whitespace, optional sign, then leading digits;
`none` models `NaN`. -/
def parseIntJS (s : List Char) : Option Int :=
  let l := s.dropWhile Char.isWhitespace
  match l with
  | '-' :: r =>
    let ds := r.takeWhile Char.isDigit
    if ds = [] then none else some (-(digitsToNat ds : Int))
  | '+' :: r =>
    let ds := r.takeWhile Char.isDigit
    if ds = [] then none else some (digitsToNat ds)
  | r =>
    let ds := r.takeWhile Char.isDigit
    if ds = [] then none else some (digitsToNat ds)

/-! ## Template packs (packs/types.ts) -/

/-- `PackMetadata` of packs/types.ts. -/
structure PackMetadata where
  id : String
  version : String
  name : String
  description : String
  language : String
  framework : String
deriving DecidableEq

/-- `Pack` of packs/types.ts. -/
structure Pack where
  metadata : PackMetadata
  rootPath : String
  templatesPath : String
deriving DecidableEq

/-- Pack-loading failure (`PackNotFoundError` / `PackLoadError` of
core/errors.ts), carrying the pack id and reason. -/
inductive PackErr where
  | notFound (packId : String)
  | loadErr (packId : String) (reason : String)
deriving DecidableEq

/-! ## Interview engine (interview/engine.ts) -/

/-- `WhenCondition` of interview/types.ts. -/
structure WhenCondition where
  field : String
  equals : Option AnswerValue
  notEquals : Option AnswerValue
  includes : Option String
deriving DecidableEq

/-- `Question` of interview/types.ts (`type` is embedded as a string). -/
structure Question where
  id : String
  qtype : String
  message : String
  qdefault : Option AnswerValue
  choices : List (String × String)
  validate : Option String
  whenCond : Option WhenCondition
deriving DecidableEq

/-- `InterviewDefinition` of interview/types.ts. -/
structure InterviewDefinition where
  version : String
  questions : List Question
deriving DecidableEq

/-- `loadInterviewDefinition` of interview/engine.ts: look for
`interview.json` in the pack root and `JSON.parse` it.  The file system and
parser are abstracted by `interviewExists` (does the file exist?) and
`parsed` (`some d` if its content parses to `d`).  No further validation of
the parsed definition — in particular of validation-rule tags — is
performed. -/
def loadInterviewDefinition (pack : Pack) (interviewExists : Bool)
    (parsed : Option InterviewDefinition) : Except PackErr InterviewDefinition :=
  if interviewExists = false then
    .error (.loadErr pack.metadata.id "interview.json not found")
  else
    match parsed with
    | none => .error (.loadErr pack.metadata.id "Failed to parse interview.json")
    | some d => .ok d

/-- Result of the engine's answer validation: `true`, or an error message. -/
inductive VResult where
  | ok
  | msg (s : String)
deriving DecidableEq

/-- The second piece of `validation.split(':')`, defaulted to `'0'` when
empty or missing (`validation.split(':')[1] || '0'`). -/
def minArg (v : String) : List Char :=
  let p := (splitOnChar ':' v.data).getD 1 []
  if p = [] then ['0'] else p

/-- The regular expression `/^[^\s@]+@[^\s@]+\.[^\s@]+$/` embedded as a
matcher: no whitespace anywhere, exactly one `@` with a nonempty part
before it, and after it a `.` that has at least one character on each
side. -/
def emailOK (s : String) : Bool :=
  (s.data.all fun c => ¬c.isWhitespace) &&
  (match splitOnChar '@' s.data with
   | [a, r] => a ≠ [] && ((r.drop 1).dropLast.contains '.')
   | _ => false)

/-- `validateAnswer` of interview/engine.ts: the `required`, `min:` and
`email` checks in program order; any other rule tag (and the absent or
empty tag) falls through to `return true`. -/
def validateAnswer (value : AnswerValue) (validation : Option String) : VResult :=
  match validation with
  | none => .ok
  | some v =>
    if v = "" then .ok
    else
      let valueStr := toStringJS value
      -- `!valueStr || valueStr.trim() === ''`: both disjuncts say the
      -- trimmed string is empty.
      if v = "required" ∧ trimChars valueStr.data = [] then
        .msg "This field is required"
      else if "min:".data.isPrefixOf v.data then
        match parseIntJS (minArg v) with
        | some m =>
          if (valueStr.length : Int) < m then
            .msg ("Must be at least " ++ toString m ++ " characters")
          else if v = "email" ∧ emailOK valueStr = false then
            .msg "Must be a valid email address"
          else .ok
        | none =>
          if v = "email" ∧ emailOK valueStr = false then
            .msg "Must be a valid email address"
          else .ok
      else if v = "email" ∧ emailOK valueStr = false then
        .msg "Must be a valid email address"
      else .ok

/-- `evaluateWhenCondition` of interview/engine.ts. -/
def evaluateWhenCondition (cond : WhenCondition) (answers : AnswerSet) : Bool :=
  let fieldValue := answers cond.field
  match cond.equals with
  | some e => fieldValue = some e
  | none =>
    match cond.notEquals with
    | some e => fieldValue ≠ some e
    | none =>
      match cond.includes, fieldValue with
      | some inc, some (.str s) => (s.splitOn inc).length ≠ 1
      | _, _ => true

/-! ## Blueprint builder (blueprint/builder.ts) -/

/-- `answers.k || default` followed by `String(...)`. -/
def strOr (answers : AnswerSet) (k : String) (dflt : String) : String :=
  match answers k with
  | some v => if truthy v then toStringJS v else dflt
  | none => dflt

/-- The Python-version lookup table of `buildBlueprintFromAnswers`
(`pythonVersionMap[pythonVersion] || '>=3.11,<4.0'`). -/
def runtimeVersionFor (pv : String) : String :=
  if pv = "3.10" then ">=3.10,<4.0"
  else if pv = "3.11" then ">=3.11,<4.0"
  else if pv = "3.12" then ">=3.12,<4.0"
  else ">=3.11,<4.0"

/-- The `BlueprintSchema.safeParse` check run by the builder before
returning: the structural typing is guaranteed by the embedding's types;
what remains are the `dependencies`/`devDependencies` semver refinements
and the seven cross-field `.refine` rules of blueprint/schema.ts. -/
def schemaOK (b : Blueprint) : Bool :=
  (b.stack.dependencies.all fun p => isValidSemverConstraint p.2) &&
  (b.stack.devDependencies.all fun p => isValidSemverConstraint p.2) &&
  (!(!b.features.database.enabled && b.features.database.migrations)) &&
  (!(!b.features.database.enabled && b.features.database.async)) &&
  (if b.features.database.enabled then
    (!(b.features.database.type = "" ∨ b.features.database.type = "none" : Bool)) &&
    (!(b.features.database.orm = "" ∨ b.features.database.orm = "none" : Bool))
   else true) &&
  (if b.features.authentication.enabled then
    (!(b.features.authentication.method = "" ∨
       b.features.authentication.method = "none" : Bool))
   else true) &&
  (!(b.tooling.testing.coverage &&
     b.tooling.testing.coverageThreshold = none : Bool)) &&
  (match b.tooling.testing.coverageThreshold with
   | some t => decide (0 ≤ t ∧ t ≤ 100)
   | none => true) &&
  (!(b.infrastructure.docker.compose && !b.infrastructure.docker.enabled))

/-- The blueprint value constructed by `buildBlueprintFromAnswers` of
blueprint/builder.ts before its schema check: extract answers with
defaults, derive dependencies and infrastructure, and assemble the record
(`new Date().toISOString()` is passed in as `now`). -/
def assembleBlueprint (pack : Pack) (answers : AnswerSet)
    (outputDir : String) (now : String) : Blueprint :=
  let projectName := strOr answers "projectName" "my-api"
  let description := strOr answers "description" ("A " ++ pack.metadata.framework ++ " application")
  let author : Option String :=
    if truthyOpt (answers "author") then
      some (toStringJS ((answers "author").getD (.str "")))
    else none
  let pythonVersion := strOr answers "pythonVersion" "3.11"
  let enableDatabase := truthyOpt (answers "enableDatabase")
  let databaseType := if enableDatabase then strOr answers "databaseType" "postgresql" else "none"
  let enableAuth := truthyOpt (answers "enableAuth")
  let authMethod := if enableAuth then strOr answers "authMethod" "jwt" else "none"
  let enableDocker := truthyOpt (answers "enableDocker")
  let enableCI := truthyOpt (answers "enableCI")
  let ciProvider := if enableCI then strOr answers "ciProvider" "github-actions" else "none"
  let dependencies :=
    [("fastapi", "^0.104.1"), ("uvicorn", "^0.24.0"), ("pydantic", "^2.5.0")] ++
    (if enableDatabase then
      [("sqlalchemy", "^2.0.23")] ++
      (if databaseType = "postgresql" then [("asyncpg", "^0.29.0")]
       else if databaseType = "mysql" then [("aiomysql", "^0.2.0")]
       else [])
     else []) ++
    (if enableAuth && (authMethod = "jwt") then
      [("python-jose", "^3.3.0"), ("passlib", "^1.7.4")]
     else [])
  let devDependencies := [("pytest", "^7.4.3"), ("httpx", "^0.25.2"), ("ruff", "^0.1.8")]
  let ciChecks : List String := if enableCI then ["lint", "typecheck", "test"] else []
  { version := "1.0"
    meta :=
      { packId := pack.metadata.id
        packVersion := pack.metadata.version
        generatedAt := now
        agentgenVersion := "0.1.0" }
    project :=
      { name := projectName
        description := description
        author := author
        license := some "MIT"
        repository := none }
    stack :=
      { language := pack.metadata.language
        framework := pack.metadata.framework
        runtime := { version := runtimeVersionFor pythonVersion, manager := "poetry" }
        dependencies := dependencies
        devDependencies := devDependencies }
    features :=
      { database :=
          { enabled := enableDatabase
            type := databaseType
            orm := if enableDatabase then "sqlalchemy" else "none"
            migrations := enableDatabase
            async := enableDatabase }
        authentication := { enabled := enableAuth, method := authMethod }
        cors := false
        rateLimiting := false
        openapi := true
        healthCheck := true }
    tooling :=
      { linter := { tool := "ruff", configFile := "pyproject.toml" }
        formatter := { tool := "ruff", configFile := "pyproject.toml" }
        typeChecker := { tool := "mypy", configFile := "pyproject.toml" }
        testing := { framework := "pytest", coverage := false, coverageThreshold := some 80 } }
    infrastructure :=
      { docker :=
          { enabled := enableDocker
            compose := enableDocker && enableDatabase
            registry := "docker.io" }
        ci := { provider := ciProvider, checks := ciChecks }
        deployment := { target := "docker" } }
    agent :=
      { strictness := "balanced"
        testRequirements := "on-request"
        allowedOperations := ["add-endpoint", "add-test", "refactor-code"]
        prohibitedOperations := ["disable-type-checking"]
        customRules := ["All endpoints should have docstrings"] }
    paths := { outputDir := outputDir, sourceDir := "src", testDir := "tests" } }

/-- `buildBlueprintFromAnswers` of blueprint/builder.ts: assemble the
blueprint from the answers, then validate it against the schema, throwing
a `ValidationError` on failure. -/
def buildBlueprintFromAnswers (pack : Pack) (answers : AnswerSet)
    (outputDir : String) (now : String) : Except String Blueprint :=
  if schemaOK (assembleBlueprint pack answers outputDir now) then
    .ok (assembleBlueprint pack answers outputDir now)
  else .error "Blueprint validation failed"

/-! ## POSIX path resolution (core/fs.ts)

`path.resolve` is embedded over character lists: the joined input is split
on `/`, then normalised (dropping empty and `.` segments and letting `..`
pop the previous segment, staying at the root when there is none), and the
result is an absolute path, `'/'`-joined. -/

/-- Does the path start with `/`? -/
def isAbs (p : List Char) : Bool :=
  match p with
  | '/' :: _ => true
  | _ => false

/-- Normalise split path segments: drop `""` and `"."`, let `".."` pop. -/
def normSegs (segs : List (List Char)) : List (List Char) :=
  segs.foldl
    (fun acc s =>
      if s = [] ∨ s = ['.'] then acc
      else if s = ['.', '.'] then acc.dropLast
      else acc ++ [s])
    []

/-- Join segments with `/` (no leading slash). -/
def icx : List (List Char) → List Char
  | [] => []
  | [s] => s
  | s :: s' :: ss => s ++ '/' :: icx (s' :: ss)

/-- Render normalised segments as an absolute path. -/
def joinAbs (segs : List (List Char)) : List Char :=
  '/' :: icx segs

/-- `path.resolve(p)` with working directory `cwd`: the segments of the
resolved absolute path. -/
def resolve1 (cwd p : List Char) : List (List Char) :=
  if isAbs p then normSegs (splitOnChar '/' p)
  else normSegs (splitOnChar '/' (cwd ++ '/' :: p))

/-- `path.resolve(base, rel)` with working directory `cwd`: the segments of
the resolved absolute path. -/
def resolve2 (cwd base rel : List Char) : List (List Char) :=
  if isAbs rel then normSegs (splitOnChar '/' rel)
  else if isAbs base then normSegs (splitOnChar '/' (base ++ '/' :: rel))
  else normSegs (splitOnChar '/' (cwd ++ '/' :: base ++ '/' :: rel))

/-- `FileWriteError` of core/errors.ts. -/
structure FWErr where
  path : String
  reason : String
deriving DecidableEq

/-- `resolveInside` of core/fs.ts: resolve `relativePath` against
`baseDir`, and fail with a `FileWriteError` unless the target equals the
resolved base or extends it past a separator
(`target === base || target.startsWith(base + path.sep)`). -/
def resolveInside (cwd : List Char) (baseDir relativePath : String) :
    Except FWErr String :=
  let base := joinAbs (resolve1 cwd baseDir.data)
  let target := joinAbs (resolve2 cwd baseDir.data relativePath.data)
  if target = base ∨ (base ++ ['/']).isPrefixOf target then
    .ok (String.mk target)
  else
    .error ⟨String.mk target, "Path traversal detected"⟩

/-- `RenderedFile` of renderer/types.ts. -/
structure RenderedFile where
  path : String
  content : String
deriving DecidableEq

/-- The file system as written so far: absolute path, content (newest
first). -/
abbrev FileSys : Type := List (String × String)

/-- `writeFile` of renderer/writer.ts: resolve inside the output directory
and write; on a traversal error nothing is written and the
`FileWriteError` is raised. -/
def writeFileM (cwd : List Char) (file : RenderedFile) (outputDir : String)
    (fs : FileSys) : FileSys × Option FWErr :=
  match resolveInside cwd outputDir file.path with
  | .ok full => ((full, file.content) :: fs, none)
  | .error e => (fs, some e)

/-- `writeFiles` of renderer/writer.ts: write the files in order, stopping
at the first error. -/
def writeFilesM (cwd : List Char) (files : List RenderedFile)
    (outputDir : String) (fs : FileSys) : FileSys × Option FWErr :=
  match files with
  | [] => (fs, none)
  | f :: rest =>
    match writeFileM cwd f outputDir fs with
    | (fs', none) => writeFilesM cwd rest outputDir fs'
    | (fs', some e) => (fs', some e)

/-! ## Pack loading (packs/loader.ts) -/

/-- `PACK_ID_PATTERN = /^[a-z0-9][a-z0-9-_]*$/`. -/
def validPackId (s : String) : Bool :=
  match s.data with
  | [] => false
  | c :: rest =>
    (c.isLower || c.isDigit) &&
    rest.all fun d => d.isLower || d.isDigit || d = '-' || d = '_'

/-- The parts of the on-disk world `loadPack` consults, keyed by absolute
path: existence, directory-ness, and the parse result of a JSON file
(`none` models both a read failure and a `JSON.parse` failure). -/
structure PackFS where
  pathExists : String → Bool
  isDirectory : String → Bool
  packJson : String → Option PackMetadata

/-- `loadPack` of packs/loader.ts: trim the id, check it against
`PACK_ID_PATTERN`, resolve the pack path inside the packs directory, check
the directory and `pack.json`, require the declared `metadata.id` to equal
the (trimmed) requested id, and check the templates directory. -/
def loadPack (fs : PackFS) (cwd : List Char) (packsDir : String)
    (packId : String) : Except PackErr Pack :=
  let safePackId := String.mk (trimChars packId.data)
  if validPackId safePackId = false then
    .error (.loadErr packId "Invalid pack id")
  else
    let resolvedPacksDir := String.mk (joinAbs (resolve1 cwd packsDir.data))
    let packPath := String.mk (joinAbs (resolve2 cwd packsDir.data safePackId.data))
    if ¬(packPath = resolvedPacksDir ∨
        (resolvedPacksDir.data ++ ['/']).isPrefixOf packPath.data) then
      .error (.loadErr safePackId "Invalid pack path")
    else if fs.pathExists packPath = false then
      .error (.notFound safePackId)
    else if fs.isDirectory packPath = false then
      .error (.loadErr safePackId "Pack path is not a directory")
    else
      let packJsonPath := packPath ++ "/pack.json"
      if fs.pathExists packJsonPath = false then
        .error (.loadErr safePackId "pack.json not found")
      else
        match fs.packJson packJsonPath with
        | none => .error (.loadErr safePackId "Failed to parse pack.json")
        | some metadata =>
          if metadata.id = "" ∨ metadata.version = "" ∨ metadata.name = "" then
            .error (.loadErr safePackId
              "pack.json missing required fields (id, version, name)")
          else if metadata.id ≠ safePackId then
            .error (.loadErr safePackId
              ("pack.json id '" ++ metadata.id ++
               "' does not match directory name '" ++ safePackId ++ "'"))
          else
            let templatesPath := packPath ++ "/templates"
            if fs.pathExists templatesPath = false ∨
                fs.isDirectory templatesPath = false then
              .error (.loadErr safePackId "templates directory not found")
            else
              .ok { metadata := metadata, rootPath := packPath,
                    templatesPath := templatesPath }

/-! ## Concrete sample data for witnesses and counterexamples -/

/-- A pack value mirroring the `python-api` pack used throughout the test
suite. -/
def samplePack : Pack :=
  { metadata :=
      { id := "python-api", version := "1.0.0", name := "Python API",
        description := "FastAPI pack", language := "python",
        framework := "fastapi" }
    rootPath := "/packs/python-api"
    templatesPath := "/packs/python-api/templates" }

/-- A consistent, fully populated blueprint (mirroring the unit tests'
mock blueprint). -/
def sampleBlueprint : Blueprint :=
  { version := "1.0"
    meta :=
      { packId := "python-api", packVersion := "1.0.0",
        generatedAt := "2026-01-07T12:00:00.000Z", agentgenVersion := "0.1.0" }
    project :=
      { name := "test-api", description := "Test API", author := none,
        license := some "MIT", repository := none }
    stack :=
      { language := "python", framework := "fastapi"
        runtime := { version := ">=3.11,<4.0", manager := "poetry" }
        dependencies := [("fastapi", "^0.104.1"), ("uvicorn", "^0.24.0")]
        devDependencies := [("pytest", "^7.4.3")] }
    features :=
      { database :=
          { enabled := false, type := "none", orm := "none",
            migrations := false, async := false }
        authentication := { enabled := false, method := "none" }
        cors := false, rateLimiting := false, openapi := true,
        healthCheck := true }
    tooling :=
      { linter := { tool := "ruff", configFile := "pyproject.toml" }
        formatter := { tool := "ruff", configFile := "pyproject.toml" }
        typeChecker := { tool := "mypy", configFile := "pyproject.toml" }
        testing :=
          { framework := "pytest", coverage := false,
            coverageThreshold := some 80 } }
    infrastructure :=
      { docker := { enabled := false, compose := false, registry := "docker.io" }
        ci := { provider := "none", checks := [] }
        deployment := { target := "docker" } }
    agent :=
      { strictness := "balanced", testRequirements := "on-request",
        allowedOperations := ["add-endpoint"],
        prohibitedOperations := ["disable-type-checking"],
        customRules := [] }
    paths := { outputDir := "/output", sourceDir := "src", testDir := "tests" } }

/-- `sampleBlueprint` with the database enabled but its type and ORM left
at the `none` placeholder: two consistency rules are violated at once. -/
def dbInconsistent : Blueprint :=
  { sampleBlueprint with
    features :=
      { sampleBlueprint.features with
        database :=
          { enabled := true, type := "none", orm := "none",
            migrations := false, async := false } } }

/-- The answer set `{enableDatabase: false}`. -/
def answersDbOff : AnswerSet :=
  fun k => if k = "enableDatabase" then some (.bool false) else none

/-- The blueprint built from `answersDbOff`. -/
def builtDbOff : Blueprint :=
  match buildBlueprintFromAnswers samplePack answersDbOff "/out" "NOW" with
  | .ok b => b
  | .error _ => sampleBlueprint

/-- An interview definition containing a question with an unknown
validation-rule tag. -/
def bogusInterview : InterviewDefinition :=
  { version := "1.0"
    questions :=
      [{ id := "q1", qtype := "text", message := "Q?", qdefault := none,
         choices := [], validate := some "bogus-rule", whenCond := none }] }

/-- An on-disk world holding one well-formed pack whose directory name
contains an underscore. -/
def underscorePackFS : PackFS :=
  { pathExists := fun p =>
      p == "/app/packs/my_pack" || p == "/app/packs/my_pack/pack.json" ||
      p == "/app/packs/my_pack/templates"
    isDirectory := fun p =>
      p == "/app/packs/my_pack" || p == "/app/packs/my_pack/templates"
    packJson := fun p =>
      if p = "/app/packs/my_pack/pack.json" then
        some { id := "my_pack", version := "1.0.0", name := "My Pack",
               description := "d", language := "python", framework := "fastapi" }
      else none }

/-! ## Lemmas: marker lines -/

/-- Equality of strings follows from equality of their character lists. -/
theorem str_ext {a b : String} (h : a.data = b.data) : a = b := by
  cases a; cases b; exact congrArg String.mk h

/-- `Except.map` produces `ok` exactly from `ok`. -/
theorem exceptMap_ok_iff {ε α β : Type} (f : α → β) (x : Except ε α) (y : β) :
    x.map f = .ok y ↔ ∃ z, x = .ok z ∧ y = f z := by
  cases x <;> simp [Except.map, eq_comm]

/-- `stripWrap` recovers the middle of a wrapped list. -/
theorem stripWrap_wrap (pre suf mid : List Char) :
    stripWrap pre suf (pre ++ (mid ++ suf)) = some mid := by
  have h2 : (pre ++ (mid ++ suf)).drop pre.length = mid ++ suf := List.drop_left _ _
  have h3 : (mid ++ suf).length - suf.length = mid.length := by simp
  simp [stripWrap, h2, h3, List.take_left]

/-- `stripWrap` succeeds only on a wrapped list. -/
theorem stripWrap_some {pre suf l m : List Char} (h : stripWrap pre suf l = some m) :
    l = pre ++ (m ++ suf) := by
  simp only [stripWrap] at h
  split at h
  · next h1 =>
    split at h
    · next h2 =>
      obtain ⟨t, ht⟩ := List.isPrefixOf_iff_prefix.mp h1
      have hdrop : l.drop pre.length = t := by
        rw [← ht]; exact List.drop_left _ _
      rw [hdrop] at h h2
      obtain ⟨u, hu⟩ := List.isSuffixOf_iff_suffix.mp h2
      have htake : t.take (t.length - suf.length) = u := by
        rw [← hu]; simp [List.take_left]
      rw [htake] at h
      injection h with h3
      rw [← ht, ← hu, h3]
    · exact absurd h (by simp)
  · exact absurd h (by simp)

/-- The start marker of `n` parses as a start marker named `n`. -/
theorem parseMarkerLine_startMark (n : String) :
    parseMarkerLine (startMark n) = some (true, n) := by
  have hd : (startMark n).data = SPRE ++ (n.data ++ MSUF) := by
    simp [startMark, List.append_assoc]
  simp [parseMarkerLine, hd, stripWrap_wrap]

/-- The start-marker head is not a prefix of an end-marker line. -/
theorem stripWrap_SPRE_end (r : List Char) :
    stripWrap SPRE MSUF (EPRE ++ r) = none := by
  simp only [stripWrap]
  rw [if_neg]
  intro h
  obtain ⟨t, ht⟩ := List.isPrefixOf_iff_prefix.mp h
  have h26 : SPRE.take 26 = EPRE := by
    have := congrArg (List.take 26) ht
    rw [List.take_append_of_le_length (by decide),
        List.take_append_of_le_length (by decide)] at this
    rw [this]
    decide
  exact absurd h26 (by decide)

/-- The end marker of `n` parses as an end marker named `n`. -/
theorem parseMarkerLine_endMark (n : String) :
    parseMarkerLine (endMark n) = some (false, n) := by
  have hd : (endMark n).data = EPRE ++ (n.data ++ MSUF) := by
    simp [endMark, List.append_assoc]
  simp [parseMarkerLine, hd, stripWrap_wrap, stripWrap_SPRE_end]

/-- A line parsing as a start marker named `m` is the start marker of `m`. -/
theorem eq_startMark_of_parse {l m : String}
    (h : parseMarkerLine l = some (true, m)) : l = startMark m := by
  simp only [parseMarkerLine] at h
  cases h1 : stripWrap SPRE MSUF l.data with
  | some d =>
    rw [h1] at h
    injection h with h2
    have hm : String.mk d = m := congrArg Prod.snd h2
    apply str_ext
    rw [stripWrap_some h1, ← hm]
    simp [startMark, List.append_assoc]
  | none =>
    rw [h1] at h
    cases h2 : stripWrap EPRE MSUF l.data with
    | some d => rw [h2] at h; injection h with h3; cases congrArg Prod.fst h3
    | none => rw [h2] at h; cases h

/-! ## Lemmas: the scanner -/

/-- Scanning the content of an open region up to its end marker collects the
content and closes the region. -/
theorem scanLines_content (n : String) (rest : List String) (ln : Nat)
    (c : List String) :
    ∀ (i : Nat) (acc : List String), (∀ l ∈ c, parseMarkerLine l = none) →
      scanLines (c ++ endMark n :: rest) i (some (n, ln, acc)) =
        (scanLines rest (i + c.length + 1) none).map
          (fun cs => Chunk.region n (acc ++ c) :: cs) := by
  induction c with
  | nil =>
    intro i acc _
    simp [scanLines, parseMarkerLine_endMark]
  | cons l c ih =>
    intro i acc hwf
    have hl : parseMarkerLine l = none := hwf l (by simp)
    simp only [List.cons_append, scanLines, hl, List.append_eq]
    rw [ih (i + 1) (acc ++ [l]) (fun x hx => hwf x (by simp [hx]))]
    have harith : i + 1 + c.length + 1 = i + (l :: c).length + 1 := by
      simp [List.length_cons]; omega
    have hacc : (acc ++ [l]) ++ c = acc ++ l :: c := by simp
    rw [harith, hacc]

/-- Rendering well-formed chunks and scanning them back is the identity. -/
theorem scanLines_render (cs : List Chunk) :
    ∀ i, (∀ ch ∈ cs, chunkWF ch) → scanLines (renderChunks cs) i none = .ok cs := by
  induction cs with
  | nil => intro i _; simp [renderChunks, scanLines]
  | cons ch cs ih =>
    intro i hwf
    have hch : chunkWF ch := hwf ch (by simp)
    have hcs : ∀ ch ∈ cs, chunkWF ch := fun x hx => hwf x (by simp [hx])
    cases ch with
    | lit l =>
      have hl : parseMarkerLine l = none := hch
      have hr : renderChunks (Chunk.lit l :: cs) = l :: renderChunks cs := by
        simp [renderChunks, renderChunk]
      rw [hr]
      simp only [scanLines, hl]
      rw [ih (i + 1) hcs]
      rfl
    | region n c =>
      have hc : ∀ l ∈ c, parseMarkerLine l = none := hch
      have hr : renderChunks (Chunk.region n c :: cs) =
          startMark n :: (c ++ endMark n :: renderChunks cs) := by
        simp [renderChunks, renderChunk]
      rw [hr]
      simp only [scanLines, parseMarkerLine_startMark]
      rw [scanLines_content n (renderChunks cs) i c (i + 1) [] hc]
      rw [ih (i + 1 + c.length + 1) hcs]
      rfl

/-- Chunks produced by a successful scan are well-formed, provided the
pending content of the open region is. -/
theorem scanLines_wf : ∀ (ls : List String) (i : Nat)
    (cur : Option (String × Nat × List String)) (cs : List Chunk),
    scanLines ls i cur = .ok cs →
    (∀ n ln acc, cur = some (n, ln, acc) → ∀ l ∈ acc, parseMarkerLine l = none) →
    ∀ ch ∈ cs, chunkWF ch := by
  intro ls
  induction ls with
  | nil =>
    intro i cur cs h _
    cases cur with
    | none =>
      simp only [scanLines] at h
      injection h with h1
      subst h1
      intro ch hch
      cases hch
    | some x =>
      obtain ⟨n, ln, acc⟩ := x
      simp [scanLines] at h
  | cons l ls ih =>
    intro i cur cs h hcur
    cases cur with
    | none =>
      cases hp : parseMarkerLine l with
      | none =>
        simp only [scanLines, hp] at h
        obtain ⟨z, hz, hcs⟩ := (exceptMap_ok_iff _ _ _).mp h
        subst hcs
        intro ch hch
        rcases List.mem_cons.mp hch with h1 | h1
        · subst h1; exact hp
        · exact ih (i + 1) none z hz (by intro n ln acc hx; cases hx) ch h1
      | some bn =>
        obtain ⟨b, m⟩ := bn
        cases b with
        | true =>
          simp only [scanLines, hp] at h
          exact ih (i + 1) (some (m, i, [])) cs h
            (by intro n' ln' acc' hx l' hl'; injection hx with hx1;
                cases hx1; cases hl')
        | false => simp [scanLines, hp] at h
    | some x =>
      obtain ⟨n, ln, acc⟩ := x
      have hacc : ∀ l ∈ acc, parseMarkerLine l = none :=
        hcur n ln acc rfl
      cases hp : parseMarkerLine l with
      | none =>
        simp only [scanLines, hp] at h
        refine ih (i + 1) (some (n, ln, acc ++ [l])) cs h ?_
        intro n' ln' acc' hx l' hl'
        injection hx with hx1
        injection hx1 with ha hb
        injection hb with hc hd
        rw [← hd] at hl'
        rcases List.mem_append.mp hl' with h1 | h1
        · exact hacc l' h1
        · rw [List.mem_singleton.mp h1]; exact hp
      | some bn =>
        obtain ⟨b, m⟩ := bn
        cases b with
        | true => simp [scanLines, hp] at h
        | false =>
          by_cases hm : m = n
          · subst hm
            simp only [scanLines, hp, if_pos rfl] at h
            obtain ⟨z, hz, hcs⟩ := (exceptMap_ok_iff _ _ _).mp h
            subst hcs
            intro ch hch
            rcases List.mem_cons.mp hch with h1 | h1
            · subst h1; exact hacc
            · exact ih (i + 1) none z hz (by intro n' ln' acc' hx; cases hx) ch h1
          · simp [scanLines, hp, hm] at h

/-! ## Lemmas: region update -/

/-- Updating preserves well-formedness when the fresh contents contain no
marker lines. -/
theorem chunkWF_upd {fresh : List FreshSection}
    (hf : ∀ s ∈ fresh, ∀ l ∈ s.content, parseMarkerLine l = none)
    {ch : Chunk} (hch : chunkWF ch) : chunkWF (updChunk fresh ch) := by
  cases ch with
  | lit l => exact hch
  | region n c =>
    simp only [updChunk]
    cases hfind : fresh.find? (fun s => s.id == n) with
    | none => exact hch
    | some s => exact hf s (List.mem_of_find?_eq_some hfind)

/-- Updating a region twice with the same fresh list is the same as
updating it once. -/
theorem updChunk_idem (fresh : List FreshSection) (ch : Chunk) :
    updChunk fresh (updChunk fresh ch) = updChunk fresh ch := by
  cases ch with
  | lit l => rfl
  | region n c =>
    simp only [updChunk]
    cases hfind : fresh.find? (fun s => s.id == n) with
    | none => simp [updChunk, hfind]
    | some s => simp [updChunk, hfind]

/-- Updating does not change the literal lines. -/
theorem litLines_upd (fresh : List FreshSection) (cs : List Chunk) :
    litLines (cs.map (updChunk fresh)) = litLines cs := by
  induction cs with
  | nil => rfl
  | cons ch cs ih =>
    cases ch with
    | lit l => simp [litLines, updChunk, List.filterMap_cons] at ih ⊢; exact ih
    | region n c =>
      simp only [List.map_cons, updChunk]
      cases hfind : fresh.find? (fun s => s.id == n) with
      | none => simp [litLines, List.filterMap_cons] at ih ⊢; exact ih
      | some s => simp [litLines, List.filterMap_cons] at ih ⊢; exact ih

/-- Every region produced by a scan was opened by a start-marker line of
the input (or was already open when the scan began). -/
theorem scanLines_region_mem : ∀ (ls : List String) (i : Nat)
    (cur : Option (String × Nat × List String)) (cs : List Chunk)
    (n : String) (c : List String),
    scanLines ls i cur = .ok cs → Chunk.region n c ∈ cs →
    startMark n ∈ ls ∨ (∃ ln acc, cur = some (n, ln, acc)) := by
  intro ls
  induction ls with
  | nil =>
    intro i cur cs n c h hmem
    cases cur with
    | none =>
      simp only [scanLines] at h
      injection h with h1
      subst h1
      cases hmem
    | some x =>
      obtain ⟨m, ln, acc⟩ := x
      simp [scanLines] at h
  | cons l ls ih =>
    intro i cur cs n c h hmem
    cases cur with
    | none =>
      cases hp : parseMarkerLine l with
      | none =>
        simp only [scanLines, hp] at h
        obtain ⟨z, hz, hcs⟩ := (exceptMap_ok_iff _ _ _).mp h
        subst hcs
        rcases List.mem_cons.mp hmem with h1 | h1
        · cases h1
        · rcases ih (i + 1) none z n c hz h1 with h2 | h2
          · exact Or.inl (List.mem_cons_of_mem l h2)
          · obtain ⟨ln, acc, h3⟩ := h2; cases h3
      | some bn =>
        obtain ⟨b, m⟩ := bn
        cases b with
        | true =>
          simp only [scanLines, hp] at h
          rcases ih (i + 1) (some (m, i, [])) cs n c h hmem with h2 | h2
          · exact Or.inl (List.mem_cons_of_mem l h2)
          · obtain ⟨ln, acc, h3⟩ := h2
            injection h3 with h4
            have hm : m = n := by injection h4 with h5 h6
            subst hm
            exact Or.inl (by rw [eq_startMark_of_parse hp]; simp)
        | false => simp [scanLines, hp] at h
    | some x =>
      obtain ⟨m, ln, acc⟩ := x
      cases hp : parseMarkerLine l with
      | none =>
        simp only [scanLines, hp] at h
        rcases ih (i + 1) (some (m, ln, acc ++ [l])) cs n c h hmem with h2 | h2
        · exact Or.inl (List.mem_cons_of_mem l h2)
        · obtain ⟨ln', acc', h3⟩ := h2
          injection h3 with h4
          have hm : m = n := by injection h4 with h5 h6
          subst hm
          exact Or.inr ⟨ln, acc, rfl⟩
      | some bn =>
        obtain ⟨b, m'⟩ := bn
        cases b with
        | true => simp [scanLines, hp] at h
        | false =>
          by_cases hm : m' = m
          · subst hm
            simp only [scanLines, hp, if_pos rfl] at h
            obtain ⟨z, hz, hcs⟩ := (exceptMap_ok_iff _ _ _).mp h
            subst hcs
            rcases List.mem_cons.mp hmem with h1 | h1
            · have hn : m' = n := by
                injection h1 with h5 h6
                exact h5.symm
              subst hn
              exact Or.inr ⟨ln, acc, rfl⟩
            · rcases ih (i + 1) none z n c hz h1 with h2 | h2
              · exact Or.inl (List.mem_cons_of_mem l h2)
              · obtain ⟨ln', acc', h3⟩ := h2; cases h3
          · simp [scanLines, hp, hm] at h

/-! ## Lemmas: malformed documents -/

/-- With a region open, scanning lines free of end markers up to a further
start marker — or an end marker with the wrong name — fails. -/
theorem scan_inside_err (n : String) (ln : Nat) (l2 : String) (post : List String)
    (hl2 : (∃ m, parseMarkerLine l2 = some (true, m)) ∨
           (∃ m, parseMarkerLine l2 = some (false, m) ∧ m ≠ n)) :
    ∀ (mid : List String) (i : Nat) (acc : List String),
      (∀ l ∈ mid, ∀ k, parseMarkerLine l ≠ some (false, k)) →
      ∃ e, scanLines (mid ++ l2 :: post) i (some (n, ln, acc)) = .error e := by
  intro mid
  induction mid with
  | nil =>
    intro i acc _
    rcases hl2 with ⟨m, hm⟩ | ⟨m, hm, hne⟩
    · exact ⟨.nested m i, by simp [scanLines, hm]⟩
    · exact ⟨.mismatch n m i, by simp [scanLines, hm, hne]⟩
  | cons l mid ih =>
    intro i acc hmid
    cases hp : parseMarkerLine l with
    | none =>
      obtain ⟨e, he⟩ := ih (i + 1) (acc ++ [l]) (fun x hx => hmid x (by simp [hx]))
      exact ⟨e, by simp only [List.cons_append, scanLines, hp]; exact he⟩
    | some bn =>
      obtain ⟨b, m⟩ := bn
      cases b with
      | true => exact ⟨.nested m i, by simp [scanLines, hp]⟩
      | false => exact absurd hp (hmid l (by simp) m)

/-- If scanning `rest` fails from every line number and state, scanning any
extension `pre ++ rest` fails as well. -/
theorem scan_err_extend (rest : List String)
    (hrest : ∀ (i : Nat) (st : Option (String × Nat × List String)),
      ∃ e, scanLines rest i st = .error e) :
    ∀ (pre : List String) (i : Nat) (st : Option (String × Nat × List String)),
      ∃ e, scanLines (pre ++ rest) i st = .error e := by
  intro pre
  induction pre with
  | nil => intro i st; exact hrest i st
  | cons l pre ih =>
    intro i st
    cases st with
    | none =>
      cases hp : parseMarkerLine l with
      | none =>
        obtain ⟨e, he⟩ := ih (i + 1) none
        exact ⟨e, by simp [scanLines, hp, he, Except.map]⟩
      | some bn =>
        obtain ⟨b, m⟩ := bn
        cases b with
        | true =>
          obtain ⟨e, he⟩ := ih (i + 1) (some (m, i, []))
          exact ⟨e, by simp only [List.cons_append, scanLines, hp]; exact he⟩
        | false => exact ⟨.endWithoutStart m i, by simp [scanLines, hp]⟩
    | some x =>
      obtain ⟨n, ln, acc⟩ := x
      cases hp : parseMarkerLine l with
      | none =>
        obtain ⟨e, he⟩ := ih (i + 1) (some (n, ln, acc ++ [l]))
        exact ⟨e, by simp only [List.cons_append, scanLines, hp]; exact he⟩
      | some bn =>
        obtain ⟨b, m⟩ := bn
        cases b with
        | true => exact ⟨.nested m i, by simp [scanLines, hp]⟩
        | false =>
          by_cases hm : m = n
          · subst hm
            obtain ⟨e, he⟩ := ih (i + 1) none
            exact ⟨e, by simp [scanLines, hp, he, Except.map]⟩
          · exact ⟨.mismatch n m i, by simp [scanLines, hp, hm]⟩

/-- Scanning a start marker followed — before any end marker — by a second
start marker, or by an end marker of a different name, fails from every
state. -/
theorem scan_start_err (l1 : String) (n : String) (mid : List String)
    (l2 : String) (post : List String)
    (hl1 : parseMarkerLine l1 = some (true, n))
    (hl2 : (∃ m, parseMarkerLine l2 = some (true, m)) ∨
           (∃ m, parseMarkerLine l2 = some (false, m) ∧ m ≠ n))
    (hmid : ∀ l ∈ mid, ∀ k, parseMarkerLine l ≠ some (false, k)) :
    ∀ (i : Nat) (st : Option (String × Nat × List String)),
      ∃ e, scanLines (l1 :: (mid ++ l2 :: post)) i st = .error e := by
  intro i st
  cases st with
  | none =>
    obtain ⟨e, he⟩ := scan_inside_err n i l2 post hl2 mid (i + 1) [] hmid
    exact ⟨e, by simp only [scanLines, hl1]; exact he⟩
  | some x =>
    obtain ⟨m, ln, acc⟩ := x
    exact ⟨.nested n i, by simp [scanLines, hl1]⟩

/-! ## Claims about the managed-section merge -/

/-- C1: Merge idempotence — applying `updateManagedSections` to its own
prior output with the same fresh regions is a no-op (the fresh contents,
being generator output, contain no marker lines). -/
theorem claim_C1 (doc : List String) (fresh : List FreshSection)
    (out : List String)
    (h : updateManagedSections doc fresh = .ok out)
    (hf : ∀ s ∈ fresh, ∀ l ∈ s.content, parseMarkerLine l = none) :
    updateManagedSections out fresh = .ok out := by
  obtain ⟨cs, hcs, hout⟩ :=
    (exceptMap_ok_iff _ _ _).mp (h : (parseDoc doc).map _ = .ok out)
  have hwf : ∀ ch ∈ cs, chunkWF ch :=
    scanLines_wf doc 0 none cs hcs (by intro a b c hx; cases hx)
  have hwf' : ∀ ch ∈ cs.map (updChunk fresh), chunkWF ch := by
    intro ch hch
    obtain ⟨ch₀, h0, rfl⟩ := List.mem_map.mp hch
    exact chunkWF_upd hf (hwf ch₀ h0)
  have hparse : parseDoc out = .ok (cs.map (updChunk fresh)) := by
    rw [hout]; exact scanLines_render _ 0 hwf'
  have hmm : (cs.map (updChunk fresh)).map (updChunk fresh) =
      cs.map (updChunk fresh) := by
    rw [List.map_map]
    exact List.map_congr_left fun a _ => updChunk_idem fresh a
  simp only [updateManagedSections, hparse, Except.map, hmm]
  exact congrArg Except.ok hout.symm

/-- C1 witness: a concrete document merged twice. -/
theorem claim_C1_witness :
    updateManagedSections ["Intro", startMark "a", "old", endMark "a", "Outro"]
      [⟨"a", ["new"]⟩] =
      .ok ["Intro", startMark "a", "new", endMark "a", "Outro"] ∧
    updateManagedSections ["Intro", startMark "a", "new", endMark "a", "Outro"]
      [⟨"a", ["new"]⟩] =
      .ok ["Intro", startMark "a", "new", endMark "a", "Outro"] :=
  ⟨by decide,
    claim_C1 ["Intro", startMark "a", "old", endMark "a", "Outro"]
      [⟨"a", ["new"]⟩] ["Intro", startMark "a", "new", endMark "a", "Outro"]
      (by decide) (by decide)⟩

/-- C2 counterexample: replaying the repository's own unit test, the fresh
entry `nonexistent` — whose name matches no existing region — is dropped:
neither its marker pair nor its content appears anywhere in the merge
output, contradicting the claim that it is appended. -/
theorem claim_C2_counterexample :
    updateManagedSections
        ["# Document", "", startMark "existing", "Old content", endMark "existing"]
        [⟨"existing", ["New content"]⟩, ⟨"nonexistent", ["This should be ignored"]⟩] =
      .ok ["# Document", "", startMark "existing", "New content", endMark "existing"] ∧
    startMark "nonexistent" ∉
      ["# Document", "", startMark "existing", "New content", endMark "existing"] ∧
    "This should be ignored" ∉
      ["# Document", "", startMark "existing", "New content", endMark "existing"] :=
  ⟨by decide, by decide, by decide⟩

/-- C2 (amended): fresh entries whose name matches no existing managed
region are ignored, not appended — the merge never introduces a start
marker that was not already a line of the input document. -/
theorem claim_C2 (doc : List String) (fresh : List FreshSection)
    (out : List String) (n : String)
    (h : updateManagedSections doc fresh = .ok out)
    (hf : ∀ s ∈ fresh, ∀ l ∈ s.content, parseMarkerLine l = none)
    (hmem : startMark n ∈ out) : startMark n ∈ doc := by
  obtain ⟨cs, hcs, hout⟩ :=
    (exceptMap_ok_iff _ _ _).mp (h : (parseDoc doc).map _ = .ok out)
  have hwf : ∀ ch ∈ cs, chunkWF ch :=
    scanLines_wf doc 0 none cs hcs (by intro a b c hx; cases hx)
  rw [hout] at hmem
  have hmem3 : ∃ ch ∈ cs, startMark n ∈ renderChunk (updChunk fresh ch) := by
    simpa [renderChunks] using hmem
  obtain ⟨ch₀, h0, hmem2⟩ := hmem3
  have hwf0 : chunkWF (updChunk fresh ch₀) := chunkWF_upd hf (hwf ch₀ h0)
  cases hupd : updChunk fresh ch₀ with
  | lit l =>
    rw [hupd] at hmem2 hwf0
    have hl : startMark n = l := List.mem_singleton.mp (by
      simpa [renderChunk] using hmem2)
    rw [← hl] at hwf0
    simp [chunkWF, parseMarkerLine_startMark] at hwf0
  | region m c =>
    rw [hupd] at hmem2 hwf0
    simp only [renderChunk] at hmem2
    rcases List.mem_cons.mp hmem2 with h1 | h1
    · have hmn : m = n := by
        have h2 := parseMarkerLine_startMark m
        rw [← h1, parseMarkerLine_startMark n] at h2
        injection h2 with h3
        exact (congrArg Prod.snd h3).symm
      subst hmn
      have hname : ∃ c₀, ch₀ = Chunk.region m c₀ := by
        cases ch₀ with
        | lit l => simp [updChunk] at hupd
        | region m₀ c₀ =>
          refine ⟨c₀, ?_⟩
          have : m₀ = m := by
            simp only [updChunk] at hupd
            cases hfind : List.find? (fun s => s.id == m₀) fresh with
            | none => rw [hfind] at hupd; injection hupd
            | some s => rw [hfind] at hupd; injection hupd
          rw [this]
      obtain ⟨c₀, hc₀⟩ := hname
      rw [hc₀] at h0
      rcases scanLines_region_mem doc 0 none cs m c₀ hcs h0 with h2 | h2
      · exact h2
      · obtain ⟨ln, acc, h3⟩ := h2; cases h3
    · rcases List.mem_append.mp h1 with h2 | h2
      · have hnone := hwf0 (startMark n) h2
        rw [parseMarkerLine_startMark] at hnone
        cases hnone
      · have h3 : startMark n = endMark m := List.mem_singleton.mp h2
        have h4 := parseMarkerLine_endMark m
        rw [← h3, parseMarkerLine_startMark] at h4
        injection h4 with h5
        cases congrArg Prod.fst h5

/-- C2 witness: in the counterexample merge, no start marker of the output
is new. -/
theorem claim_C2_witness :
    startMark "existing" ∈
      ["# Document", "", startMark "existing", "Old content", endMark "existing"] :=
  claim_C2
    ["# Document", "", startMark "existing", "Old content", endMark "existing"]
    [⟨"existing", ["New content"]⟩, ⟨"nonexistent", ["This should be ignored"]⟩]
    ["# Document", "", startMark "existing", "New content", endMark "existing"]
    "existing" (by decide) (by decide) (by decide)

/-- C3: mismatched or nested markers make the merge fail with a
`MalformedDocument` error and no output is produced; at the spec's concrete
scenario (a start marker `x` immediately followed by a start marker `y`)
the error identifies the offending marker `y` and its line. -/
theorem claim_C3 :
    (∀ (doc : List String) (fresh : List FreshSection),
      NestedPattern doc ∨ MismatchPattern doc →
      ∃ e, updateManagedSections doc fresh = .error e) ∧
    updateManagedSections [startMark "x", startMark "y"] [] =
      .error (.nested "y" 1) := by
  constructor
  · intro doc fresh hpat
    have hscan : ∃ e, parseDoc doc = .error e := by
      rcases hpat with ⟨pre, mid, post, l1, l2, n, m, hdoc, hl1, hl2, hmid⟩ |
        ⟨pre, mid, post, l1, l2, n, m, hdoc, hl1, hl2, hne, hmid⟩
      · subst hdoc
        exact scan_err_extend _
          (scan_start_err l1 n mid l2 post hl1 (Or.inl ⟨m, hl2⟩) hmid) pre 0 none
      · subst hdoc
        exact scan_err_extend _
          (scan_start_err l1 n mid l2 post hl1 (Or.inr ⟨m, hl2, hne⟩) hmid) pre 0 none
    obtain ⟨e, he⟩ := hscan
    exact ⟨e, by simp [updateManagedSections, he, Except.map]⟩
  · decide

/-- C3 witness: the nesting scenario instantiated. -/
theorem claim_C3_witness :
    (NestedPattern [startMark "x", startMark "y"] ∨
      MismatchPattern [startMark "x", startMark "y"]) ∧
    ∃ e, updateManagedSections [startMark "x", startMark "y"] [] = .error e := by
  have hpat : NestedPattern [startMark "x", startMark "y"] :=
    ⟨[], [], [], startMark "x", startMark "y", "x", "y", by simp,
      parseMarkerLine_startMark "x", parseMarkerLine_startMark "y",
      by intro l hl; cases hl⟩
  exact ⟨Or.inl hpat, claim_C3.1 [startMark "x", startMark "y"] [] (Or.inl hpat)⟩

/-- C4: merge frame property — on success, the output re-parses, its
literal lines are exactly those of the input (in order), and every orphan
region (name absent from the fresh list) keeps its content untouched. -/
theorem claim_C4 (doc : List String) (fresh : List FreshSection)
    (out : List String)
    (h : updateManagedSections doc fresh = .ok out)
    (hf : ∀ s ∈ fresh, ∀ l ∈ s.content, parseMarkerLine l = none) :
    ∃ cs outCs, parseDoc doc = .ok cs ∧ parseDoc out = .ok outCs ∧
      litLines outCs = litLines cs ∧
      ∀ n c, Chunk.region n c ∈ cs → (∀ s ∈ fresh, ¬s.id = n) →
        Chunk.region n c ∈ outCs := by
  obtain ⟨cs, hcs, hout⟩ :=
    (exceptMap_ok_iff _ _ _).mp (h : (parseDoc doc).map _ = .ok out)
  have hwf : ∀ ch ∈ cs, chunkWF ch :=
    scanLines_wf doc 0 none cs hcs (by intro a b c hx; cases hx)
  refine ⟨cs, cs.map (updChunk fresh), hcs, ?_, litLines_upd _ _, ?_⟩
  · rw [hout]
    refine scanLines_render _ 0 ?_
    intro ch hch
    obtain ⟨ch₀, h0, rfl⟩ := List.mem_map.mp hch
    exact chunkWF_upd hf (hwf ch₀ h0)
  · intro n c hmem hnone
    have hfind : fresh.find? (fun s => s.id == n) = none :=
      List.find?_eq_none.mpr fun s hs => by simp [hnone s hs]
    exact List.mem_map.mpr ⟨_, hmem, by simp [updChunk, hfind]⟩

/-- C4 witness: a concrete merge with an orphan region `b`. -/
theorem claim_C4_witness :
    ∃ cs outCs,
      parseDoc ["A", startMark "a", "old", endMark "a", "B",
        startMark "b", "keep", endMark "b", "C"] = .ok cs ∧
      parseDoc (["A", startMark "a", "NEW-A", endMark "a", "B",
        startMark "b", "keep", endMark "b", "C"]) = .ok outCs ∧
      litLines outCs = litLines cs ∧
      ∀ n c, Chunk.region n c ∈ cs → (∀ s ∈ [(⟨"a", ["NEW-A"]⟩ : FreshSection)], ¬s.id = n) →
        Chunk.region n c ∈ outCs :=
  claim_C4
    ["A", startMark "a", "old", endMark "a", "B",
      startMark "b", "keep", endMark "b", "C"]
    [⟨"a", ["NEW-A"]⟩]
    ["A", startMark "a", "NEW-A", endMark "a", "B",
      startMark "b", "keep", endMark "b", "C"]
    (by decide) (by decide)

/-! ## Lemmas: the semver-constraint grammar -/

/-- A successful `dropNum` split off a nonempty digit run. -/
theorem dropNum_some {l r : List Char} (h : dropNum l = some r) :
    ∃ x, x ≠ [] ∧ (∀ c ∈ x, c.isDigit) ∧ l = x ++ r := by
  simp only [dropNum] at h
  split at h
  · cases h
  · next hne =>
    injection h with h1
    refine ⟨l.takeWhile Char.isDigit, hne, ?_, ?_⟩
    · intro c hc; exact List.mem_takeWhile_imp hc
    · rw [← h1]; exact (List.takeWhile_append_dropWhile _ _).symm

/-- `dropNum` consumes exactly a leading digit run when what follows does
not start with a digit. -/
theorem dropNum_append {x r : List Char} (hx : x ≠ [])
    (hdig : ∀ c ∈ x, c.isDigit)
    (hr : ∀ c, r.head? = some c → c.isDigit = false) :
    dropNum (x ++ r) = some r := by
  have hrt : r.takeWhile Char.isDigit = [] := by
    cases r with
    | nil => rfl
    | cons c r' =>
      have := hr c rfl
      simp [List.takeWhile_cons, this]
  have hrd : r.dropWhile Char.isDigit = r := by
    cases r with
    | nil => rfl
    | cons c r' =>
      have := hr c rfl
      simp [List.dropWhile_cons, this]
  have ht : (x ++ r).takeWhile Char.isDigit = x := by
    rw [List.takeWhile_append_of_pos hdig, hrt, List.append_nil]
  have hd : (x ++ r).dropWhile Char.isDigit = r := by
    rw [List.dropWhile_append_of_pos hdig, hrd]
  simp [dropNum, ht, hd, hx]

/-- `matchTriple` succeeds with remainder `rest` (not starting with a
digit) exactly on `X.Y.Z` followed by `rest`. -/
theorem matchTriple_some_iff {l rest : List Char}
    (hrest : ∀ c, rest.head? = some c → c.isDigit = false) :
    matchTriple l = some rest ↔
      ∃ x y z, NumRun x ∧ NumRun y ∧ NumRun z ∧
        l = x ++ '.' :: (y ++ '.' :: (z ++ rest)) := by
  constructor
  · intro h
    simp only [matchTriple] at h
    split at h
    · next c r1 heq1 =>
      split at h
      · next hc =>
        subst hc
        split at h
        · next d r2 heq2 =>
          split at h
          · next hd =>
            subst hd
            obtain ⟨x, hx1, hx2, hx3⟩ := dropNum_some heq1
            obtain ⟨y, hy1, hy2, hy3⟩ := dropNum_some heq2
            obtain ⟨z, hz1, hz2, hz3⟩ := dropNum_some h
            exact ⟨x, y, z, ⟨hx1, hx2⟩, ⟨hy1, hy2⟩, ⟨hz1, hz2⟩,
              by rw [hx3, hy3, hz3]⟩
          · cases h
        · cases h
      · cases h
    · cases h
  · rintro ⟨x, y, z, ⟨hx1, hx2⟩, ⟨hy1, hy2⟩, ⟨hz1, hz2⟩, hl⟩
    have h1 : dropNum l = some ('.' :: (y ++ '.' :: (z ++ rest))) := by
      rw [hl]
      exact dropNum_append hx1 hx2 (by intro c hc; injection hc with h; rw [← h]; rfl)
    have h2 : dropNum (y ++ '.' :: (z ++ rest)) = some ('.' :: (z ++ rest)) :=
      dropNum_append hy1 hy2 (by intro c hc; injection hc with h; rw [← h]; rfl)
    have h3 : dropNum (z ++ rest) = some rest :=
      dropNum_append hz1 hz2 hrest
    simp [matchTriple, h1, h2, h3]

/-- `matchTriple` consuming the whole list is the spec's `X.Y.Z` grammar. -/
theorem matchTriple_nil_iff (l : List Char) :
    matchTriple l = some [] ↔ SpecTriple l := by
  rw [matchTriple_some_iff (by intro c hc; cases hc)]
  unfold SpecTriple
  constructor
  · rintro ⟨x, y, z, hx, hy, hz, hl⟩
    exact ⟨x, y, z, hx, hy, hz, by rw [hl]; simp⟩
  · rintro ⟨x, y, z, hx, hy, hz, hl⟩
    exact ⟨x, y, z, hx, hy, hz, by rw [hl]; simp⟩

/-- The version-constraint matcher embedded from the validator's regular
expressions recognises exactly the spec's §4.2 rule 5 grammar. -/
theorem isValidSemverConstraint_iff (s : String) :
    isValidSemverConstraint s = true ↔ SemverGrammar s := by
  have hstar : s.data = ['*'] ↔ s = "*" :=
    ⟨fun h => str_ext (by rw [h]), fun h => by rw [h]⟩
  constructor
  · intro h
    simp only [isValidSemverConstraint, Bool.or_eq_true, decide_eq_true_eq] at h
    rcases h with ((((((((h | h) | h) | h) | h) | h) | h) | h) | h) | h
    · exact Or.inl ((matchTriple_nil_iff _).mp h)
    · rcases hd : s.data with _ | ⟨c, r⟩ <;> rw [hd] at h
      · cases h
      · simp only [Bool.and_eq_true, beq_iff_eq, decide_eq_true_eq] at h
        obtain ⟨hc, hm⟩ := h
        subst hc
        exact Or.inr (Or.inl ⟨r, hd, (matchTriple_nil_iff _).mp hm⟩)
    · rcases hd : s.data with _ | ⟨c, r⟩ <;> rw [hd] at h
      · cases h
      · simp only [Bool.and_eq_true, beq_iff_eq, decide_eq_true_eq] at h
        obtain ⟨hc, hm⟩ := h
        subst hc
        exact Or.inr (Or.inr (Or.inl ⟨r, hd, (matchTriple_nil_iff _).mp hm⟩))
    · rcases hd : s.data with _ | ⟨c, r0⟩ <;> rw [hd] at h
      · cases h
      · rcases r0 with _ | ⟨d, r⟩
        · cases h
        · simp only [Bool.and_eq_true, beq_iff_eq, decide_eq_true_eq] at h
          obtain ⟨⟨hc, hd2⟩, hm⟩ := h
          subst hc; subst hd2
          exact Or.inr (Or.inr (Or.inr (Or.inl
            ⟨r, hd, (matchTriple_nil_iff _).mp hm⟩)))
    · rcases hd : s.data with _ | ⟨c, r0⟩ <;> rw [hd] at h
      · cases h
      · rcases r0 with _ | ⟨d, r⟩
        · cases h
        · simp only [Bool.and_eq_true, beq_iff_eq, decide_eq_true_eq] at h
          obtain ⟨⟨hc, hd2⟩, hm⟩ := h
          subst hc; subst hd2
          exact Or.inr (Or.inr (Or.inr (Or.inr (Or.inl
            ⟨r, hd, (matchTriple_nil_iff _).mp hm⟩))))
    · rcases hd : s.data with _ | ⟨c, r⟩ <;> rw [hd] at h
      · cases h
      · simp only [Bool.and_eq_true, beq_iff_eq, decide_eq_true_eq] at h
        obtain ⟨hc, hm⟩ := h
        subst hc
        exact Or.inr (Or.inr (Or.inr (Or.inr (Or.inr (Or.inl
          ⟨r, hd, (matchTriple_nil_iff _).mp hm⟩)))))
    · rcases hd : s.data with _ | ⟨c, r⟩ <;> rw [hd] at h
      · cases h
      · simp only [Bool.and_eq_true, beq_iff_eq, decide_eq_true_eq] at h
        obtain ⟨hc, hm⟩ := h
        subst hc
        exact Or.inr (Or.inr (Or.inr (Or.inr (Or.inr (Or.inr (Or.inl
          ⟨r, hd, (matchTriple_nil_iff _).mp hm⟩))))))
    · rcases hd : s.data with _ | ⟨c, r0⟩ <;> rw [hd] at h
      · cases h
      · rcases r0 with _ | ⟨d, r⟩
        · cases h
        · simp only [Bool.and_eq_true, beq_iff_eq] at h
          obtain ⟨⟨hc, hd2⟩, hm⟩ := h
          subst hc; subst hd2
          split at hm
          · next rr hrr =>
            rcases rr with _ | ⟨e, rr1⟩
            · cases hm
            · rcases rr1 with _ | ⟨f, r2⟩
              · cases hm
              · simp only [Bool.and_eq_true, beq_iff_eq, decide_eq_true_eq] at hm
                obtain ⟨⟨he, hf⟩, hm2⟩ := hm
                subst he; subst hf
                obtain ⟨x, y, z, hx, hy, hz, hreq⟩ :=
                  (matchTriple_some_iff
                    (by intro c hc; injection hc with h1; rw [← h1]; rfl)).mp hrr
                refine Or.inr (Or.inr (Or.inr (Or.inr (Or.inr (Or.inr (Or.inr
                  (Or.inl ⟨x ++ '.' :: y ++ '.' :: z, r2,
                    ⟨x, y, z, hx, hy, hz, rfl⟩,
                    (matchTriple_nil_iff _).mp hm2, ?_⟩)))))))
                rw [hd, hreq]
                simp
          · cases hm
    · exact Or.inr (Or.inr (Or.inr (Or.inr (Or.inr (Or.inr (Or.inr (Or.inr
        (Or.inl (hstar.mp h)))))))))
    · exact Or.inr (Or.inr (Or.inr (Or.inr (Or.inr (Or.inr (Or.inr (Or.inr
        (Or.inr h))))))))
  · intro h
    rcases h with h | ⟨r, hd, h⟩ | ⟨r, hd, h⟩ | ⟨r, hd, h⟩ | ⟨r, hd, h⟩ |
      ⟨r, hd, h⟩ | ⟨r, hd, h⟩ | ⟨a, b, ha, hb, hd⟩ | h | h
    · simp [isValidSemverConstraint, (matchTriple_nil_iff _).mpr h]
    · simp [isValidSemverConstraint, hd, (matchTriple_nil_iff _).mpr h]
    · simp [isValidSemverConstraint, hd, (matchTriple_nil_iff _).mpr h]
    · simp [isValidSemverConstraint, hd, (matchTriple_nil_iff _).mpr h]
    · simp [isValidSemverConstraint, hd, (matchTriple_nil_iff _).mpr h]
    · simp [isValidSemverConstraint, hd, (matchTriple_nil_iff _).mpr h]
    · simp [isValidSemverConstraint, hd, (matchTriple_nil_iff _).mpr h]
    · have hr : matchTriple (a ++ ',' :: '<' :: b) = some (',' :: '<' :: b) := by
        obtain ⟨x, y, z, hx, hy, hz, ha2⟩ := ha
        refine (matchTriple_some_iff
          (by intro c hc; injection hc with h1; rw [← h1]; rfl)).mpr
          ⟨x, y, z, hx, hy, hz, ?_⟩
        rw [ha2]
        simp
      simp [isValidSemverConstraint, hd, hr, (matchTriple_nil_iff _).mpr hb]
    · subst h; decide
    · subst h; decide


/-! ## Claims about the validators -/

/-- An occurrence inside `m` is preserved when `m` is extended on the
left. -/
theorem infix_extend_left {α : Type} {l m : List α} (pre : List α)
    (h : l <:+: m) : l <:+: pre ++ m := by
  obtain ⟨u, v, huv⟩ := h
  exact ⟨pre ++ u, v, by rw [← huv]; simp⟩

/-- Every message of the list occurs inside the newline-join. -/
theorem mem_infix_joinNL {e : String} : ∀ {l : List String}, e ∈ l →
    e.data <:+: (joinNL l).data := by
  intro l
  induction l with
  | nil => intro h; cases h
  | cons s rest ih =>
    intro h
    rcases List.mem_cons.mp h with h1 | h1
    · subst h1
      cases rest with
      | nil => exact ⟨[], [], by simp [joinNL]⟩
      | cons t ts => exact ⟨[], ("\n" ++ joinNL (t :: ts)).data, by simp [joinNL]⟩
    · cases rest with
      | nil => cases h1
      | cons t ts =>
        obtain ⟨u, v, huv⟩ := ih h1
        refine ⟨(s ++ "\n").data ++ u, v, ?_⟩
        have hj : (joinNL (s :: t :: ts)).data =
            (s ++ "\n").data ++ (joinNL (t :: ts)).data := by
          simp [joinNL]
        rw [hj, ← huv]
        simp

/-- C5 counterexample: a blueprint violating two consistency rules at once
is rejected with a single thrown `ValidationError` whose message is the two
collected messages concatenated with newlines — not a structured list of
per-field entries. -/
theorem claim_C5_counterexample :
    consistencyErrors dbInconsistent =
      ["Database type must be specified when database is enabled",
       "Database ORM must be specified when database is enabled"] ∧
    validateBlueprintConsistency dbInconsistent =
      .error ("Validation failed: Blueprint consistency validation failed:\n" ++
        "Database type must be specified when database is enabled\n" ++
        "Database ORM must be specified when database is enabled") :=
  ⟨by decide, by decide⟩

/-- C5 (amended): `validateBlueprintConsistency` evaluates all of its rules
and collects every violation before failing — it succeeds exactly when no
rule is violated, and when it fails the single error string it throws
contains every collected violation message, joined with newlines after a
fixed header (rather than a structured per-field list). -/
theorem claim_C5 (b : Blueprint) :
    (validateBlueprintConsistency b = .ok () ↔ consistencyErrors b = []) ∧
    (∀ m, validateBlueprintConsistency b = .error m →
      m = "Validation failed: Blueprint consistency validation failed:\n" ++
        joinNL (consistencyErrors b) ∧
      ∀ e ∈ consistencyErrors b, e.data <:+: m.data) := by
  constructor
  · unfold validateBlueprintConsistency
    split
    · next h => simp [h]
    · next h => simp [h]
  · intro m hm
    unfold validateBlueprintConsistency at hm
    split at hm
    · cases hm
    · next hne =>
      injection hm with h1
      constructor
      · exact h1.symm
      · intro e he
        rw [← h1]
        rw [String.data_append]
        exact infix_extend_left _ (mem_infix_joinNL he)

set_option maxRecDepth 8192 in
/-- C5 witness: in the counterexample, both collected messages occur in the
thrown string. -/
theorem claim_C5_witness :
    ("Database type must be specified when database is enabled").data <:+:
      ("Validation failed: Blueprint consistency validation failed:\n" ++
        "Database type must be specified when database is enabled\n" ++
        "Database ORM must be specified when database is enabled").data :=
  ((claim_C5 dbInconsistent).2
      ("Validation failed: Blueprint consistency validation failed:\n" ++
        "Database type must be specified when database is enabled\n" ++
        "Database ORM must be specified when database is enabled")
      (by decide)).2
    "Database type must be specified when database is enabled" (by decide)

/-- C6: dependency validation passes exactly when every dependency and dev
dependency version matches the spec's constraint grammar, and each
violating entry contributes a message naming the offending key to the
thrown error. -/
theorem claim_C6 (b : Blueprint) :
    (validateBlueprintDependencies b = .ok () ↔
      ∀ p ∈ b.stack.dependencies ++ b.stack.devDependencies, SemverGrammar p.2) ∧
    (∀ m, validateBlueprintDependencies b = .error m →
      (∀ p ∈ b.stack.dependencies, ¬SemverGrammar p.2 →
        ("Invalid version constraint for dependency '" ++ p.1 ++ "': " ++
          p.2).data <:+: m.data) ∧
      (∀ p ∈ b.stack.devDependencies, ¬SemverGrammar p.2 →
        ("Invalid version constraint for dev dependency '" ++ p.1 ++ "': " ++
          p.2).data <:+: m.data)) := by
  constructor
  · have hok : validateBlueprintDependencies b = .ok () ↔ dependencyErrors b = [] := by
      unfold validateBlueprintDependencies
      split
      · next h => simp [h]
      · next h => simp [h]
    rw [hok]
    unfold dependencyErrors
    rw [List.append_eq_nil, List.filterMap_eq_nil_iff, List.filterMap_eq_nil_iff]
    constructor
    · intro ⟨h1, h2⟩ p hp
      rw [← isValidSemverConstraint_iff]
      rcases List.mem_append.mp hp with hp1 | hp1
      · have := h1 p hp1
        cases hval : isValidSemverConstraint p.2 with
        | true => rfl
        | false => simp [hval] at this
      · have := h2 p hp1
        cases hval : isValidSemverConstraint p.2 with
        | true => rfl
        | false => simp [hval] at this
    · intro h
      constructor
      · intro p hp
        have := (isValidSemverConstraint_iff p.2).mpr
          (h p (List.mem_append.mpr (Or.inl hp)))
        simp [this]
      · intro p hp
        have := (isValidSemverConstraint_iff p.2).mpr
          (h p (List.mem_append.mpr (Or.inr hp)))
        simp [this]
  · intro m hm
    unfold validateBlueprintDependencies at hm
    split at hm
    · cases hm
    · next hne =>
      injection hm with h1
      have hmem : ∀ e ∈ dependencyErrors b, e.data <:+: m.data := by
        intro e he
        rw [← h1, String.data_append]
        exact infix_extend_left _ (mem_infix_joinNL he)
      constructor
      · intro p hp hbad
        refine hmem _ (List.mem_append.mpr (Or.inl ?_))
        refine List.mem_filterMap.mpr ⟨p, hp, ?_⟩
        cases hval : isValidSemverConstraint p.2 with
        | true => exact absurd ((isValidSemverConstraint_iff p.2).mp hval) hbad
        | false => simp [hval]
      · intro p hp hbad
        refine hmem _ (List.mem_append.mpr (Or.inr ?_))
        refine List.mem_filterMap.mpr ⟨p, hp, ?_⟩
        cases hval : isValidSemverConstraint p.2 with
        | true => exact absurd ((isValidSemverConstraint_iff p.2).mp hval) hbad
        | false => simp [hval]

/-- C6 witness: a version string of the sample blueprint is in the grammar
because validation passes. -/
theorem claim_C6_witness : SemverGrammar "^0.104.1" :=
  (claim_C6 sampleBlueprint).1.mp (by decide) ("fastapi", "^0.104.1") (by decide)

/-! ## Claims about the interview engine -/

/-- C7 counterexample: an interview definition with the unknown rule tag
`bogus-rule` loads successfully, and unknown tags — including the claim's
`min-length:N` and `numeric` spellings — accept every answer at runtime
(even the empty string). -/
theorem claim_C7_counterexample :
    loadInterviewDefinition samplePack true (some bogusInterview) =
      .ok bogusInterview ∧
    bogusInterview.questions.map Question.validate = [some "bogus-rule"] ∧
    validateAnswer (.str "") (some "bogus-rule") = .ok ∧
    validateAnswer (.str "ab") (some "min-length:3") = .ok ∧
    validateAnswer (.str "not-a-number") (some "numeric") = .ok :=
  ⟨by decide, by decide, by decide, by decide, by decide⟩

/-- C7 (amended): loading an interview definition performs no
validation-rule check at all (it succeeds whenever the file exists and
parses), and any rule tag other than `required`, `min:N` and `email` — the
only rules the engine implements — is a runtime no-op accepting every
answer. -/
theorem claim_C7 :
    (∀ (pack : Pack) (ex : Bool) (parsed : Option InterviewDefinition)
      (d : InterviewDefinition),
      loadInterviewDefinition pack ex parsed = .ok d ↔
        (ex = true ∧ parsed = some d)) ∧
    (∀ (v : AnswerValue) (tag : String), tag ≠ "required" →
      "min:".data.isPrefixOf tag.data = false → tag ≠ "email" →
      validateAnswer v (some tag) = .ok) := by
  constructor
  · intro pack ex parsed d
    cases ex <;> cases parsed <;> simp [loadInterviewDefinition, eq_comm]
  · intro v tag h1 h2 h3
    simp only [validateAnswer]
    by_cases h0 : tag = ""
    · simp [h0]
    · rw [if_neg h0, if_neg (by simp [h1]), if_neg (by simp [h2]),
        if_neg (by simp [h3])]

/-- C7 witness: the claim's `numeric` tag is accepted as a no-op. -/
theorem claim_C7_witness : validateAnswer (.str "not-a-number") (some "numeric") = .ok :=
  claim_C7.2 (.str "not-a-number") "numeric" (by decide) (by decide) (by decide)

/-! ## Claims about the blueprint builder -/

/-- A blueprint whose fields satisfy the pointwise conditions has no
consistency violations. -/
theorem consistencyErrors_nil (b : Blueprint)
    (h1 : b.features.database.enabled = false)
    (h2 : b.features.authentication.enabled = true →
      ¬(b.features.authentication.method = "" ∨
        b.features.authentication.method = "none"))
    (h3 : b.infrastructure.ci.provider ≠ "none" →
      b.infrastructure.ci.checks ≠ [])
    (h4 : b.infrastructure.docker.compose = true →
      b.infrastructure.docker.enabled = true)
    (h5 : b.tooling.testing.coverage = true →
      b.tooling.testing.coverageThreshold ≠ none)
    (h6 : ∀ t, b.tooling.testing.coverageThreshold = some t →
      0 ≤ t ∧ t ≤ 100) :
    consistencyErrors b = [] := by
  unfold consistencyErrors
  rw [if_neg (by simp [h1])]
  rw [show (if b.features.authentication.enabled then
      (if b.features.authentication.method = "" ∨
          b.features.authentication.method = "none" then
        ["Authentication method must be specified when authentication is enabled"]
      else []) else []) = [] from ?_]
  rotate_left
  · by_cases hA : b.features.authentication.enabled = true
    · rw [if_pos hA, if_neg (h2 hA)]
    · rw [if_neg hA]
  rw [show (if b.infrastructure.ci.provider ≠ "none" then
      (if b.infrastructure.ci.checks = [] then
        ["CI checks must be specified when CI provider is configured"]
      else []) else []) = [] from ?_]
  rotate_left
  · by_cases hP : b.infrastructure.ci.provider ≠ "none"
    · rw [if_pos hP, if_neg (h3 hP)]
    · rw [if_neg hP]
  rw [if_neg (by
    intro hc
    obtain ⟨hc1, hc2⟩ := hc
    exact hc2 (h4 hc1))]
  rw [if_neg (by
    intro hc
    obtain ⟨hc1, hc2⟩ := hc
    exact h5 hc1 hc2)]
  rw [show (match b.tooling.testing.coverageThreshold with
      | some t =>
        if t < 0 ∨ t > 100 then
          ["Coverage threshold must be between 0 and 100"]
        else []
      | none => ([] : List String)) = [] from ?_]
  rotate_left
  · cases ht : b.tooling.testing.coverageThreshold with
    | none => rfl
    | some t =>
      obtain ⟨ht1, ht2⟩ := h6 t ht
      simp only []
      rw [if_neg (by omega)]
  simp

/-- C8: for every answer set in which the database feature is answered as
disabled, every blueprint the builder returns has `features.database.type`
equal to `"none"` and `migrations`/`async` equal to `false`, and
consistency validation reports no violations on it. -/
theorem claim_C8 (pack : Pack) (answers : AnswerSet) (outputDir now : String)
    (b : Blueprint)
    (hdb : answers "enableDatabase" = some (.bool false))
    (hok : buildBlueprintFromAnswers pack answers outputDir now = .ok b) :
    b.features.database.type = "none" ∧ b.features.database.migrations = false ∧
    b.features.database.async = false ∧
    validateBlueprintConsistency b = .ok () := by
  unfold buildBlueprintFromAnswers at hok
  split at hok
  · next hs =>
    injection hok with hb
    subst hb
    simp only [schemaOK, Bool.and_eq_true] at hs
    obtain ⟨⟨⟨⟨⟨⟨⟨⟨hc1, hc2⟩, hc3⟩, hc4⟩, hc5⟩, hc6⟩, hc7⟩, hc8⟩, hc9⟩ := hs
    refine ⟨?_, ?_, ?_, ?_⟩
    · simp [assembleBlueprint, hdb, truthyOpt, truthy]
    · simp [assembleBlueprint, hdb, truthyOpt, truthy]
    · simp [assembleBlueprint, hdb, truthyOpt, truthy]
    · have hnil : consistencyErrors
          (assembleBlueprint pack answers outputDir now) = [] := by
        refine consistencyErrors_nil _ ?_ ?_ ?_ ?_ ?_ ?_
        · simp [assembleBlueprint, hdb, truthyOpt, truthy]
        · intro hA hbad
          rw [if_pos hA] at hc6
          simp at hc6
          tauto
        · intro hP
          by_cases heCI : truthyOpt (answers "enableCI") = true
          · simp [assembleBlueprint, heCI]
          · exfalso
            apply hP
            simp only [Bool.not_eq_true] at heCI
            simp [assembleBlueprint, heCI]
        · intro hc
          simp [assembleBlueprint, hdb, truthyOpt, truthy] at hc
        · intro h
          simp [assembleBlueprint] at h
        · intro t ht
          simp only [assembleBlueprint] at ht
          injection ht with h1
          omega
      simp [validateBlueprintConsistency, hnil]
  · exact absurd hok (by simp)

/-- C8 witness: the scenario answer set `{enableDatabase: false}`. -/
theorem claim_C8_witness :
    buildBlueprintFromAnswers samplePack answersDbOff "/out" "NOW" =
      .ok builtDbOff ∧
    (builtDbOff.features.database.type = "none" ∧
     builtDbOff.features.database.migrations = false ∧
     builtDbOff.features.database.async = false ∧
     validateBlueprintConsistency builtDbOff = .ok ()) :=
  ⟨by decide,
    claim_C8 samplePack answersDbOff "/out" "NOW" builtDbOff
      (by decide) (by decide)⟩

/-! ## Claims about pack loading -/

/-- C9 counterexample: the identifier `my_pack` contains an underscore — a
character outside alphanumeric-plus-hyphen — yet `loadPack` accepts it and
returns a Pack, contradicting the claim that any such identifier fails. -/
theorem claim_C9_counterexample :
    ('_' ∈ "my_pack".data ∧ ¬('_'.isAlphanum ∨ '_' = '-')) ∧
    loadPack underscorePackFS "/cwd".data "/app/packs" "my_pack" =
      .ok { metadata :=
              { id := "my_pack", version := "1.0.0", name := "My Pack",
                description := "d", language := "python",
                framework := "fastapi" }
            rootPath := "/app/packs/my_pack"
            templatesPath := "/app/packs/my_pack/templates" } :=
  ⟨by decide, by decide⟩

/-- C9 (amended): the identifier check accepts exactly the trimmed
identifiers matching `^[a-z0-9][a-z0-9-_]*$` (underscore allowed despite
being outside alphanumeric-plus-hyphen, and uppercase rejected;
path-traversal identifiers fail since `.` and `/` are excluded); for
identifiers passing the check a Pack is returned only if the pack's
declared metadata id equals the trimmed identifier. -/
theorem claim_C9 (fs : PackFS) (cwd : List Char) (packsDir packId : String) :
    (validPackId (String.mk (trimChars packId.data)) = false →
      ∃ e, loadPack fs cwd packsDir packId = .error e) ∧
    (∀ pack, loadPack fs cwd packsDir packId = .ok pack →
      validPackId (String.mk (trimChars packId.data)) = true ∧
      pack.metadata.id = String.mk (trimChars packId.data)) := by
  constructor
  · intro hbad
    refine ⟨.loadErr packId "Invalid pack id", ?_⟩
    unfold loadPack
    rw [if_pos hbad]
  · intro pack hok
    simp only [loadPack] at hok
    split at hok
    · cases hok
    · next hval =>
      have hv : validPackId (String.mk (trimChars packId.data)) = true := by
        cases h : validPackId (String.mk (trimChars packId.data)) with
        | true => rfl
        | false => exact absurd h hval
      refine ⟨hv, ?_⟩
      split at hok
      · cases hok
      · split at hok
        · cases hok
        · split at hok
          · cases hok
          · split at hok
            · cases hok
            · split at hok
              · cases hok
              · next metadata heq =>
                split at hok
                · cases hok
                · next hfields =>
                  split at hok
                  · cases hok
                  · next hid =>
                    split at hok
                    · cases hok
                    · injection hok with hp
                      rw [← hp]
                      simpa using hid

/-- C9 witness: a path-traversal identifier is rejected. -/
theorem claim_C9_witness :
    ∃ e, loadPack underscorePackFS "/cwd".data "/app/packs" "../evil" =
      .error e :=
  (claim_C9 underscorePackFS "/cwd".data "/app/packs" "../evil").1 (by decide)

/-! ## Lemmas: path resolution -/

/-- The pieces produced by `splitOnChar` never contain the separator. -/
theorem splitOnChar_no_sep (sep : Char) : ∀ (l : List Char),
    ∀ s ∈ splitOnChar sep l, sep ∉ s := by
  intro l
  induction l with
  | nil =>
    intro s hs
    simp only [splitOnChar] at hs
    rw [List.mem_singleton.mp hs]
    exact List.not_mem_nil sep
  | cons c cs ih =>
    intro s hs
    simp only [splitOnChar] at hs
    by_cases hc : c = sep
    · rw [if_pos hc] at hs
      rcases List.mem_cons.mp hs with h1 | h1
      · rw [h1]; exact List.not_mem_nil sep
      · exact ih s h1
    · rw [if_neg hc] at hs
      rcases List.mem_cons.mp hs with h1 | h1
      · rw [h1]
        intro hmem
        rcases List.mem_cons.mp hmem with h2 | h2
        · exact hc h2.symm
        · cases hsp : splitOnChar sep cs with
          | nil => rw [hsp] at h2; cases h2
          | cons h t =>
            rw [hsp] at h2
            exact ih h (hsp ▸ List.mem_cons_self h t) (by simpa using h2)
      · refine ih s ?_
        cases hsp : splitOnChar sep cs with
        | nil => rw [hsp] at h1; cases h1
        | cons h t =>
          rw [hsp] at h1
          exact List.mem_cons_of_mem h (by simpa using h1)

/-- Normalised segments are nonempty and slash-free when the input pieces
are slash-free. -/
theorem normSegs_valid_aux (step : List (List Char) → List Char → List (List Char))
    (hstep : step = fun acc s =>
      if s = [] ∨ s = ['.'] then acc
      else if s = ['.', '.'] then acc.dropLast
      else acc ++ [s]) :
    ∀ (segs acc : List (List Char)),
      (∀ t ∈ acc, t ≠ [] ∧ '/' ∉ t) → (∀ s ∈ segs, '/' ∉ s) →
      ∀ t ∈ segs.foldl step acc, t ≠ [] ∧ '/' ∉ t := by
  subst hstep
  intro segs
  induction segs with
  | nil => intro acc hacc _ t ht; exact hacc t ht
  | cons s segs ih =>
    intro acc hacc hsegs t ht
    simp only [List.foldl_cons] at ht
    by_cases h1 : s = [] ∨ s = ['.']
    · rw [if_pos h1] at ht
      exact ih acc hacc (fun x hx => hsegs x (List.mem_cons_of_mem s hx)) t ht
    · rw [if_neg h1] at ht
      by_cases h2 : s = ['.', '.']
      · rw [if_pos h2] at ht
        exact ih acc.dropLast
          (fun x hx => hacc x (List.dropLast_subset acc hx))
          (fun x hx => hsegs x (List.mem_cons_of_mem s hx)) t ht
      · rw [if_neg h2] at ht
        refine ih (acc ++ [s]) ?_
          (fun x hx => hsegs x (List.mem_cons_of_mem s hx)) t ht
        intro x hx
        rcases List.mem_append.mp hx with h3 | h3
        · exact hacc x h3
        · rw [List.mem_singleton.mp h3]
          refine ⟨?_, hsegs s (List.mem_cons_self s segs)⟩
          intro hnil
          exact h1 (Or.inl hnil)

/-- Segments of a normalisation are nonempty and slash-free. -/
theorem normSegs_valid (segs : List (List Char))
    (h : ∀ s ∈ segs, '/' ∉ s) :
    ∀ t ∈ normSegs segs, t ≠ [] ∧ '/' ∉ t :=
  normSegs_valid_aux _ rfl segs [] (by intro t ht; cases ht) h

/-- Segments of a resolved path are nonempty and slash-free. -/
theorem resolve1_valid (cwd p : List Char) :
    ∀ t ∈ resolve1 cwd p, t ≠ [] ∧ '/' ∉ t := by
  unfold resolve1
  split
  · exact normSegs_valid _ (splitOnChar_no_sep '/' _)
  · exact normSegs_valid _ (splitOnChar_no_sep '/' _)

/-- Segments of a two-argument resolution are nonempty and slash-free. -/
theorem resolve2_valid (cwd base rel : List Char) :
    ∀ t ∈ resolve2 cwd base rel, t ≠ [] ∧ '/' ∉ t := by
  unfold resolve2
  split
  · exact normSegs_valid _ (splitOnChar_no_sep '/' _)
  · split
    · exact normSegs_valid _ (splitOnChar_no_sep '/' _)
    · exact normSegs_valid _ (splitOnChar_no_sep '/' _)

/-- Two slash-free words followed by a separator align: a prefix relation
between `b ++ '/' :: u` and `t ++ '/' :: w` forces `b = t`. -/
theorem seg_prefix_split {b t u w : List Char} (hb : '/' ∉ b) (ht : '/' ∉ t) :
    b ++ '/' :: u <+: t ++ '/' :: w → b = t ∧ u <+: w := by
  induction b generalizing t with
  | nil =>
    intro h
    cases t with
    | nil => simpa using h
    | cons c t2 =>
      rw [List.nil_append, List.cons_append] at h
      obtain ⟨h1, _⟩ := List.cons_prefix_cons.mp h
      exact absurd (h1 ▸ List.mem_cons_self c t2) ht
  | cons a b2 ih =>
    intro h
    cases t with
    | nil =>
      rw [List.cons_append, List.nil_append] at h
      obtain ⟨h1, _⟩ := List.cons_prefix_cons.mp h
      exact absurd (h1 ▸ List.mem_cons_self a b2) hb
    | cons c t2 =>
      rw [List.cons_append, List.cons_append] at h
      obtain ⟨h1, h2⟩ := List.cons_prefix_cons.mp h
      have hb2 : '/' ∉ b2 := fun hx => hb (List.mem_cons_of_mem a hx)
      have ht2 : '/' ∉ t2 := fun hx => ht (List.mem_cons_of_mem c hx)
      obtain ⟨h3, h4⟩ := ih hb2 ht2 h2
      exact ⟨by rw [h1, h3], h4⟩

/-- Slash-joined valid segment lists (each slash-terminated) are related by
string prefix only when the segment lists are related by list prefix. -/
theorem icx_prefix : ∀ (B T : List (List Char)),
    (∀ s ∈ B, s ≠ [] ∧ '/' ∉ s) → (∀ s ∈ T, s ≠ [] ∧ '/' ∉ s) →
    icx B ++ ['/'] <+: icx T ++ ['/'] → B <+: T := by
  intro B
  induction B with
  | nil => intro T _ _ _; exact List.nil_prefix
  | cons b B2 ih =>
    intro T hB hT h
    obtain ⟨hbne, hbs⟩ := hB b (List.mem_cons_self b B2)
    cases T with
    | nil =>
      exfalso
      cases b with
      | nil => exact hbne rfl
      | cons c b3 =>
        cases B2 with
        | nil =>
          have h2 : c :: (b3 ++ ['/']) <+: ['/'] := by
            simpa only [icx, List.cons_append, List.nil_append] using h
          obtain ⟨h1, _⟩ := List.cons_prefix_cons.mp h2
          exact hbs (by rw [← h1]; exact List.mem_cons_self c b3)
        | cons b4 B3 =>
          have h2 : c :: (b3 ++ '/' :: (icx (b4 :: B3) ++ ['/'])) <+: ['/'] := by
            simpa only [icx, List.cons_append, List.nil_append,
              List.append_assoc] using h
          obtain ⟨h1, _⟩ := List.cons_prefix_cons.mp h2
          exact hbs (by rw [← h1]; exact List.mem_cons_self c b3)
    | cons t T2 =>
      have hB2 : ∀ s ∈ B2, s ≠ [] ∧ '/' ∉ s :=
        fun s hs => hB s (List.mem_cons_of_mem b hs)
      have hT2 : ∀ s ∈ T2, s ≠ [] ∧ '/' ∉ s :=
        fun s hs => hT s (List.mem_cons_of_mem t hs)
      have hts : '/' ∉ t := (hT t (List.mem_cons_self t T2)).2
      cases B2 with
      | nil =>
        cases T2 with
        | nil =>
          have h2 : b ++ '/' :: ([] : List Char) <+: t ++ '/' :: [] := by
            simpa only [icx] using h
          obtain ⟨h3, _⟩ := seg_prefix_split hbs hts h2
          rw [h3]
        | cons t2 T3 =>
          have h2 : b ++ '/' :: ([] : List Char) <+:
              t ++ '/' :: (icx (t2 :: T3) ++ ['/']) := by
            simpa only [icx, List.cons_append, List.append_assoc] using h
          obtain ⟨h3, _⟩ := seg_prefix_split hbs hts h2
          rw [h3]
          exact List.cons_prefix_cons.mpr ⟨rfl, List.nil_prefix⟩
      | cons b2 B3 =>
        cases T2 with
        | nil =>
          exfalso
          have h2 : b ++ '/' :: (icx (b2 :: B3) ++ ['/']) <+: t ++ '/' :: [] := by
            simpa only [icx, List.cons_append, List.append_assoc] using h
          obtain ⟨_, h4⟩ := seg_prefix_split hbs hts h2
          have h5 := List.prefix_nil.mp h4
          simp at h5
        | cons t2 T3 =>
          have h2 : b ++ '/' :: (icx (b2 :: B3) ++ ['/']) <+:
              t ++ '/' :: (icx (t2 :: T3) ++ ['/']) := by
            simpa only [icx, List.cons_append, List.append_assoc] using h
          obtain ⟨h3, h4⟩ := seg_prefix_split hbs hts h2
          exact List.cons_prefix_cons.mpr ⟨h3, ih (t2 :: T3) hB2 hT2 h4⟩

/-- A successful `resolveInside` means the target's resolved segments
extend the base's resolved segments. -/
theorem resolveInside_ok {cwd : List Char} {baseDir rel t : String}
    (h : resolveInside cwd baseDir rel = .ok t) :
    t = String.mk (joinAbs (resolve2 cwd baseDir.data rel.data)) ∧
    resolve1 cwd baseDir.data <+: resolve2 cwd baseDir.data rel.data := by
  simp only [resolveInside] at h
  split at h
  · next hcheck =>
    injection h with h1
    refine ⟨h1.symm, ?_⟩
    have hvB := resolve1_valid cwd baseDir.data
    have hvT := resolve2_valid cwd baseDir.data rel.data
    rcases hcheck with hc | hc
    · -- equal joined strings
      have hic : icx (resolve2 cwd baseDir.data rel.data) =
          icx (resolve1 cwd baseDir.data) := by
        simp only [joinAbs] at hc
        injection hc with h1 h2
      apply icx_prefix _ _ hvB hvT
      rw [hic]
    · -- strict prefix past a separator
      have hc2 : joinAbs (resolve1 cwd baseDir.data) ++ ['/'] <+:
          joinAbs (resolve2 cwd baseDir.data rel.data) :=
        List.isPrefixOf_iff_prefix.mp hc
      simp only [joinAbs, List.cons_append] at hc2
      obtain ⟨_, hc3⟩ := List.cons_prefix_cons.mp hc2
      exact icx_prefix _ _ hvB hvT
        (hc3.trans (List.prefix_append _ _))
  · cases h

/-- When the resolved target does not extend the base, `resolveInside`
fails with the `FileWriteError`. -/
theorem resolveInside_error {cwd : List Char} {baseDir rel : String}
    (h : ¬ resolve1 cwd baseDir.data <+: resolve2 cwd baseDir.data rel.data) :
    resolveInside cwd baseDir rel =
      .error ⟨String.mk (joinAbs (resolve2 cwd baseDir.data rel.data)),
        "Path traversal detected"⟩ := by
  cases hres : resolveInside cwd baseDir rel with
  | ok t => exact absurd (resolveInside_ok hres).2 h
  | error e =>
    simp only [resolveInside] at hres
    split at hres
    · cases hres
    · injection hres with h1
      rw [h1]

/-! ## Claim about the file writer -/

/-- C10: output-directory containment — `writeFile`/`writeFiles` only ever
create files whose resolved path lies inside the output directory (its
resolved segments extend the output directory's resolved segments), and a
file whose path resolves outside it raises a `FileWriteError` with nothing
written. -/
theorem claim_C10 (cwd : List Char) (outputDir : String) (f : RenderedFile)
    (files : List RenderedFile) (fs : FileSys) :
    (∀ pc ∈ (writeFileM cwd f outputDir fs).1, pc ∈ fs ∨
      ∃ T, pc.1 = String.mk (joinAbs T) ∧
        resolve1 cwd outputDir.data <+: T) ∧
    (¬ resolve1 cwd outputDir.data <+:
        resolve2 cwd outputDir.data f.path.data →
      (writeFileM cwd f outputDir fs).1 = fs ∧
      (writeFileM cwd f outputDir fs).2 =
        some ⟨String.mk (joinAbs (resolve2 cwd outputDir.data f.path.data)),
          "Path traversal detected"⟩) ∧
    (∀ pc ∈ (writeFilesM cwd files outputDir fs).1, pc ∈ fs ∨
      ∃ T, pc.1 = String.mk (joinAbs T) ∧
        resolve1 cwd outputDir.data <+: T) := by
  have key : ∀ (g : RenderedFile) (fs0 : FileSys),
      ∀ pc ∈ (writeFileM cwd g outputDir fs0).1, pc ∈ fs0 ∨
        ∃ T, pc.1 = String.mk (joinAbs T) ∧
          resolve1 cwd outputDir.data <+: T := by
    intro g fs0 pc hpc
    unfold writeFileM at hpc
    cases hres : resolveInside cwd outputDir g.path with
    | ok t =>
      rw [hres] at hpc
      rcases List.mem_cons.mp hpc with h1 | h1
      · right
        obtain ⟨ht, hpre⟩ := resolveInside_ok hres
        exact ⟨resolve2 cwd outputDir.data g.path.data, by rw [h1, ht], hpre⟩
      · exact Or.inl h1
    | error e =>
      rw [hres] at hpc
      exact Or.inl hpc
  refine ⟨key f fs, ?_, ?_⟩
  · intro hout
    have herr := @resolveInside_error cwd outputDir f.path hout
    unfold writeFileM
    rw [herr]
    exact ⟨rfl, rfl⟩
  · intro pc
    induction files generalizing fs with
    | nil => intro hpc; exact Or.inl hpc
    | cons g gs ih =>
      intro hpc
      unfold writeFilesM at hpc
      cases hw : writeFileM cwd g outputDir fs with
      | mk fs2 oe =>
        rw [hw] at hpc
        have hfs2 : ∀ q ∈ fs2, q ∈ fs ∨
            ∃ T, q.1 = String.mk (joinAbs T) ∧
              resolve1 cwd outputDir.data <+: T := by
          intro q hq
          exact key g fs q (by rw [hw]; exact hq)
        cases oe with
        | none =>
          rcases ih fs2 hpc with h1 | h1
          · exact hfs2 pc h1
          · exact Or.inr h1
        | some e => exact hfs2 pc hpc

/-- C10 witness: writing `../evil.txt` into `/tmp/out` is rejected with a
`FileWriteError` and the file system is unchanged. -/
theorem claim_C10_witness :
    ¬ resolve1 "/cwd".data "/tmp/out".data <+:
        resolve2 "/cwd".data "/tmp/out".data "../evil.txt".data ∧
    ((writeFileM "/cwd".data ⟨"../evil.txt", "nope"⟩ "/tmp/out" []).1 = [] ∧
     (writeFileM "/cwd".data ⟨"../evil.txt", "nope"⟩ "/tmp/out" []).2 =
       some ⟨String.mk (joinAbs
          (resolve2 "/cwd".data "/tmp/out".data "../evil.txt".data)),
         "Path traversal detected"⟩) :=
  ⟨by decide,
    (claim_C10 "/cwd".data "/tmp/out" ⟨"../evil.txt", "nope"⟩ [] []).2.1
      (by decide)⟩

end Agentgen
